import Mathlib

/-
Verification development for the ingredx ingredient engine
(src/ingredx/engine.py).

Python strings are modelled as lists of Unicode code points
(`PyStr := List Nat`); every text-processing routine of the source is
translated char-by-char, including the exact behaviour of the regular
expressions it uses (leftmost match, greedy repetition with
backtracking).  Case mappings model the ASCII fragment of Python's
str.lower / str.upper / str.title, which is the fragment exercised by
the engine's inputs.
-/

namespace Ingredx

/-- Python strings, modelled as lists of Unicode code points. -/
abbrev PyStr := List Nat

/-- Embed a Lean string literal into the code-point model. -/
def pystr (s : String) : PyStr := s.data.map Char.toNat

-- ---------- character classes ----------

def isUpperA (n : Nat) : Bool := decide (65 ≤ n ∧ n ≤ 90)

def isLowerA (n : Nat) : Bool := decide (97 ≤ n ∧ n ≤ 122)

def isAlphaA (n : Nat) : Bool := isUpperA n || isLowerA n

def isDigitA (n : Nat) : Bool := decide (48 ≤ n ∧ n ≤ 57)

/-- Python regex \s (whitespace): space, tab, newline, CR, VT, FF. -/
def isPyWs (n : Nat) : Bool :=
  decide (n = 32 ∨ n = 9 ∨ n = 10 ∨ n = 13 ∨ n = 11 ∨ n = 12)

/-- Characters of the OCR-noise class [\n\r\t|*_•·] in
extract_ingredients_from_text. -/
def isNoise (n : Nat) : Bool :=
  decide (n = 10 ∨ n = 13 ∨ n = 9 ∨ n = 124 ∨ n = 42 ∨ n = 95 ∨ n = 8226 ∨ n = 183)

/-- The list-delimiter class [;,/.] used by the extractor. -/
def isListDelim (n : Nat) : Bool :=
  decide (n = 59 ∨ n = 44 ∨ n = 47 ∨ n = 46)

/-- The characters stripped from token edges: space . ; : - -/
def isEdgeStrip (n : Nat) : Bool :=
  decide (n = 32 ∨ n = 46 ∨ n = 59 ∨ n = 58 ∨ n = 45)

/-- Characters kept by the scrub [^a-zA-Z0-9(),.\s-] -> space. -/
def isKeep4 (n : Nat) : Bool :=
  isAlphaA n || isDigitA n || isPyWs n ||
    decide (n = 40 ∨ n = 41 ∨ n = 44 ∨ n = 46 ∨ n = 45)

/-- Regex \w (word character), ASCII fragment: letters, digits, underscore. -/
def isWordC (n : Nat) : Bool := isAlphaA n || isDigitA n || decide (n = 95)

-- ---------- case mapping (ASCII fragment of Python's str methods) ----------

def lowerC (n : Nat) : Nat := if 65 ≤ n ∧ n ≤ 90 then n + 32 else n

def upperC (n : Nat) : Nat := if 97 ≤ n ∧ n ≤ 122 then n - 32 else n

def pyLower (l : PyStr) : PyStr := l.map lowerC

/-- Case-insensitive single-char comparison against an (already lowercase)
target, as performed by re.IGNORECASE. -/
def chEq (n target : Nat) : Bool := decide (lowerC n = target)

-- ---------- strip / title ----------

def dropTrailWhile (p : Nat → Bool) (l : PyStr) : PyStr :=
  ((l.reverse).dropWhile p).reverse

def pyStripWith (p : Nat → Bool) (l : PyStr) : PyStr :=
  dropTrailWhile p (l.dropWhile p)

/-- Python str.strip() with no argument: strip whitespace at both ends. -/
def pyStrip (l : PyStr) : PyStr := pyStripWith isPyWs l

/-- Python str.strip(" .;:-"). -/
def stripEdge (l : PyStr) : PyStr := pyStripWith isEdgeStrip l

/-- Case adjustment of one character by str.title(), given whether the
previous character was a letter. -/
def titleC (prevAlpha : Bool) (c : Nat) : Nat :=
  if isAlphaA c then (if prevAlpha then lowerC c else upperC c) else c

/-- Python str.title(): a letter is uppercased when the previous character
is not a letter, lowercased otherwise. -/
def titleGo (prevAlpha : Bool) : PyStr → PyStr
  | [] => []
  | c :: r => titleC prevAlpha c :: titleGo (isAlphaA c) r

def pyTitle (l : PyStr) : PyStr := titleGo false l

/-- Python str.capitalize(): first char uppercased, rest lowercased. -/
def pyCapitalize (l : PyStr) : PyStr :=
  match l with
  | [] => []
  | c :: r => upperC c :: pyLower r

/-- Python str.isdigit() (ASCII fragment): nonempty and all digits. -/
def isAllDigit (l : PyStr) : Bool := !l.isEmpty && l.all isDigitA

-- ---------- stage 1: noise normalization ----------

/-- re.sub(r"[\n\r\t|*_•·]+", " ", text): each maximal run of noise
characters becomes a single space (inRun records that the current noise
run has already emitted its space). -/
def normNoiseGo (inRun : Bool) : PyStr → PyStr
  | [] => []
  | c :: r =>
    if isNoise c then
      if inRun then normNoiseGo true r else 32 :: normNoiseGo true r
    else c :: normNoiseGo false r

def normNoise (l : PyStr) : PyStr := normNoiseGo false l

/-- Emit a completed whitespace run: a run of two or more characters
collapses to one space, a single character is kept as itself. -/
def wsFlush (pending : PyStr) : PyStr := if 2 ≤ pending.length then [32] else pending

/-- re.sub(r"\s{2,}", " ", text): each maximal run of two or more
whitespace characters becomes a single space (pending accumulates the
whitespace run in progress). -/
def collapseGo (pending : PyStr) : PyStr → PyStr
  | [] => wsFlush pending
  | c :: r =>
    if isPyWs c then collapseGo (pending ++ [c]) r
    else wsFlush pending ++ (c :: collapseGo [] r)

def collapseWs (l : PyStr) : PyStr := collapseGo [] l

-- ---------- stage 2: fuzzy header search ----------

/-- The class [eai] under re.IGNORECASE. -/
def eaiC (n : Nat) : Bool := decide (lowerC n = 101 ∨ lowerC n = 97 ∨ lowerC n = 105)

/-- Consume one optional character matching the given class
(an X? regex item whose continuation always succeeds). -/
def dropOptCls (p : Nat → Bool) (l : PyStr) : PyStr :=
  match l with
  | c :: r => if p c then r else l
  | [] => []

/-- The punctuation class [:\-–_—] after the header word. -/
def isHdrPunct (n : Nat) : Bool :=
  decide (n = 58 ∨ n = 45 ∨ n = 8211 ∨ n = 95 ∨ n = 8212)

/-- After the mandatory d of the header regex: [iy]? e? n? t? s?
then \s* [:\-–_—]* \s*; the remainder is capture group 1. -/
def headerAfterD (l : PyStr) : PyStr :=
  let l1 := dropOptCls (fun c => decide (lowerC c = 105 ∨ lowerC c = 121)) l
  let l2 := dropOptCls (fun c => chEq c 101) l1
  let l3 := dropOptCls (fun c => chEq c 110) l2
  let l4 := dropOptCls (fun c => chEq c 116) l3
  let l5 := dropOptCls (fun c => chEq c 115) l4
  ((l5.dropWhile isPyWs).dropWhile isHdrPunct).dropWhile isPyWs

/-- Match the mandatory d of the header regex, then the tail. -/
def headerD (l : PyStr) : Option PyStr :=
  match l with
  | d :: r => if chEq d 100 then some (headerAfterD r) else none
  | [] => none

/-- Greedy [eai]{0,2} with backtracking before the mandatory d:
try two class characters, then one, then zero. -/
def headerAfterIngr (l : PyStr) : Option PyStr :=
  match l with
  | a :: b :: r =>
    if eaiC a && eaiC b then
      match headerD r with
      | some s => some s
      | none =>
        if eaiC a then
          match headerD (b :: r) with
          | some s => some s
          | none => headerD (a :: b :: r)
        else headerD (a :: b :: r)
    else if eaiC a then
      match headerD (b :: r) with
      | some s => some s
      | none => headerD (a :: b :: r)
    else headerD (a :: b :: r)
  | [a] =>
    if eaiC a then
      match headerD [] with
      | some s => some s
      | none => headerD [a]
    else headerD [a]
  | [] => headerD []

/-- Attempt the header regex
ingr[eai]{0,2}d[iy]?e?n?t?s?\s*[:\-–_—]*\s*(.*) at this position
(re.IGNORECASE | re.DOTALL); on success return capture group 1. -/
def headerAt (l : PyStr) : Option PyStr :=
  match l with
  | c1 :: c2 :: c3 :: c4 :: r =>
    if chEq c1 105 && chEq c2 110 && chEq c3 103 && chEq c4 114 then
      headerAfterIngr r
    else none
  | _ => none

/-- re.search: leftmost position at which the header regex matches. -/
def findHeader : PyStr → Option PyStr
  | [] => none
  | c :: r =>
    match headerAt (c :: r) with
    | some s => some s
    | none => findHeader r

/-- The boilerplate marker words of the truncation regex. -/
def boilerWords : List PyStr :=
  [pystr ("contains"), pystr ("manufactured"), pystr ("nutrition"),
   pystr ("distributed"), pystr ("may contain"), pystr ("allergen"),
   pystr ("storage"), pystr ("warning")]

/-- startsWithCI w l: does l start with the (lowercase) word w,
compared case-insensitively? -/
def startsWithCI : PyStr → PyStr → Bool
  | [], _ => true
  | _ :: _, [] => false
  | w :: ws, c :: cs => chEq c w && startsWithCI ws cs

def boilerHere (l : PyStr) : Bool := boilerWords.any (fun w => startsWithCI w l)

/-- re.split(boilerplate, section)[0]: the prefix before the leftmost
occurrence of any boilerplate marker word. -/
def takeUntilBoiler : PyStr → PyStr
  | [] => []
  | c :: r => if boilerHere (c :: r) then [] else c :: takeUntilBoiler r

-- ---------- stage 3: headerless inference ----------

/-- len(text.split()): number of maximal nonwhitespace runs. -/
def wordCountGo (inWord : Bool) : PyStr → Nat
  | [] => 0
  | c :: r =>
    if isPyWs c then wordCountGo false r
    else (if inWord then 0 else 1) + wordCountGo true r

def wordCount (l : PyStr) : Nat := wordCountGo false l

/-- The inner class [A-Za-z() ] of the "looks like a list" regex. -/
def probClass (n : Nat) : Bool := isAlphaA n || decide (n = 40 ∨ n = 41 ∨ n = 32)

/-- Backtracking \s* followed by [A-Za-z() ]+: try consuming j whitespace
characters (largest first); the class run must be nonempty. -/
def wsClassTry (l : PyStr) : Nat → Option PyStr
  | 0 =>
    match l with
    | c :: r => if probClass c then some ((c :: r).dropWhile probClass) else none
    | [] => none
  | j + 1 =>
    match l.drop (j + 1) with
    | c :: r => if probClass c then some ((c :: r).dropWhile probClass) else wsClassTry l j
    | [] => wsClassTry l j

/-- One iteration of (?:[,;/\.]\s*[A-Za-z() ]+). -/
def probIter (l : PyStr) : Option PyStr :=
  match l with
  | d :: r =>
    if isListDelim d then wsClassTry r ((r.takeWhile isPyWs).length) else none
  | [] => none

/-- Greedy repetition of the iteration; returns the count and remainder. -/
def probIters : Nat → PyStr → Nat × PyStr
  | 0, l => (0, l)
  | fuel + 1, l =>
    match probIter l with
    | some r =>
      let p := probIters fuel r
      (p.1 + 1, p.2)
    | none => (0, l)

/-- Attempt ([A-Z][a-z]+\s*(?:[,;/\.]\s*[A-Za-z() ]+){2,}) at this
position; on success return the matched group. -/
def probAt (l : PyStr) : Option PyStr :=
  match l with
  | c :: r =>
    if isUpperA c then
      let lows := r.takeWhile isLowerA
      if lows.length = 0 then none
      else
        let r2 := r.drop lows.length
        let r3 := r2.drop ((r2.takeWhile isPyWs).length)
        let p := probIters r3.length r3
        if 2 ≤ p.1 then some (l.take (l.length - p.2.length)) else none
    else none
  | [] => none

/-- re.search for the capitalized-run pattern: leftmost match. -/
def probFind : PyStr → Option PyStr
  | [] => none
  | c :: r =>
    match probAt (c :: r) with
    | some g => some g
    | none => probFind r

-- ---------- stage 4: delimiter normalization ----------

/-- re.sub(r"([;,/\.])(?=[A-Za-z])", r"\1 ", section): insert a space
after a delimiter immediately followed by a letter. -/
def insertSpaceAfterDelim : PyStr → PyStr
  | [] => []
  | c :: r =>
    if isListDelim c && (match r with | d :: _ => isAlphaA d | [] => false) then
      c :: 32 :: insertSpaceAfterDelim r
    else c :: insertSpaceAfterDelim r

/-- .replace(";", ",").replace("/", ",").replace(".", ","). -/
def foldDelims (l : PyStr) : PyStr :=
  l.map (fun c => if c = 59 ∨ c = 47 ∨ c = 46 then 44 else c)

/-- re.sub(r"[^a-zA-Z0-9(),.\s-]", " ", section). -/
def scrubC (l : PyStr) : PyStr := l.map (fun c => if isKeep4 c then c else 32)

/-- The whole delimiter-normalization stage applied to the candidate
section. -/
def stage4 (sec : PyStr) : PyStr :=
  pyStrip (collapseWs (scrubC (foldDelims (insertSpaceAfterDelim sec))))

-- ---------- stage 5: splitting and cleaning ----------

/-- The negative lookahead (?![^()]*\)) fails exactly when the first
parenthesis character after the comma is a closing one. -/
def nextParenClose : PyStr → Bool
  | [] => false
  | c :: r => if c = 40 then false else if c = 41 then true else nextParenClose r

/-- re.split(r",(?![^()]*\))", section). -/
def splitTop : PyStr → List PyStr
  | [] => [[]]
  | c :: r =>
    if decide (c = 44) && !nextParenClose r then [] :: splitTop r
    else
      match splitTop r with
      | t :: ts => (c :: t) :: ts
      | [] => [[c]]

/-- Lookbehind (?<!\b[A-Z]): the period is NOT a split point when the
previous character is an uppercase letter preceded by a word boundary. -/
def lookbehindCap (pp p : Option Nat) : Bool :=
  match p with
  | some q =>
    isUpperA q && (match pp with | some q2 => !isWordC q2 | none => true)
  | none => false

/-- re.split(r"\s{2,}|(?<!\b[A-Z])[.]", p).  pp and p are the two
characters before the scan position (the regex lookbehind window); skip
is true while the tail of an already-split whitespace run is being
consumed.  The lookbehind only tests upper-case/word-character classes,
on which all whitespace characters agree, so a consumed run is
represented by spaces in the window. -/
def subSplitGo (pp p : Option Nat) (skip : Bool) : PyStr → List PyStr
  | [] => [[]]
  | c :: r =>
    if skip && isPyWs c then subSplitGo (some 32) (some 32) true r
    else if !skip && isPyWs c &&
        (match r with | d :: _ => isPyWs d | [] => false) then
      [] :: subSplitGo (some 32) (some 32) true r
    else if decide (c = 46) && !lookbehindCap pp p then
      [] :: subSplitGo p (some 46) false r
    else
      match subSplitGo p (some c) false r with
      | t :: ts => (c :: t) :: ts
      | [] => [[c]]

/-- The token-level boilerplate filter re.match(r"contains|manufactured|warning", p, re.I). -/
def isBoiler3 (l : PyStr) : Bool :=
  startsWithCI (pystr ("contains")) l || startsWithCI (pystr ("manufactured")) l ||
    startsWithCI (pystr ("warning")) l

/-- Clean one comma-token: strip edges, title-case, filter, split into
sub-tokens, strip/title/filter those. -/
def cleanPart (p0 : PyStr) : List PyStr :=
  let p := pyTitle (stripEdge p0)
  if decide (1 < p.length) && !isAllDigit p && !isBoiler3 p then
    (subSplitGo none none false p).filterMap (fun s0 =>
      let s := pyTitle (stripEdge s0)
      if decide (1 < s.length) && !decide (pyLower s = pystr ("and")) &&
          !decide (pyLower s = pystr ("or")) then
        some s
      else none)
  else []

-- ---------- stage 6: deduplication ----------

/-- The seen-set walk: keep the first occurrence of each lowercased
identity, preserving order. -/
def dedupGo (seen : List PyStr) : List PyStr → List PyStr
  | [] => []
  | x :: xs =>
    if pyLower x ∈ seen then dedupGo seen xs
    else x :: dedupGo (pyLower x :: seen) xs

-- ---------- the extractor ----------

/-- Stages 1-2 normalization: strip, noise removal, whitespace collapse. -/
def normalizedText (raw : PyStr) : PyStr :=
  pyStrip (collapseWs (normNoise (pyStrip raw)))

/-- Stages 2-3: locate the candidate ingredient section of the
normalized text (None and the empty string are both falsy in the source,
hence both map to none). -/
def sectionOfText (text : PyStr) : Option PyStr :=
  let hdr :=
    match findHeader text with
    | some rem =>
      let s := takeUntilBoiler rem
      if s.isEmpty then none else some s
    | none => none
  match hdr with
  | some s => some s
  | none =>
    if 2 ≤ text.countP isListDelim ∧ wordCount text < 80 then
      if text.isEmpty then none else some text
    else
      match probFind text with
      | some g => if g.isEmpty then none else some g
      | none => none

def sectionOf (raw : PyStr) : Option PyStr := sectionOfText (normalizedText raw)

/-- The cleaned token sequence before deduplication (stages 4-5). -/
def cleanedTokens (raw : PyStr) : List PyStr :=
  match sectionOf raw with
  | none => []
  | some sec => (splitTop (stage4 sec)).flatMap cleanPart

/-- IngredientEngine.extract_ingredients_from_text. -/
def extract_ingredients_from_text (raw : PyStr) : List PyStr :=
  if (pyStrip raw).isEmpty then []
  else dedupGo [] (cleanedTokens raw)

-- ---------- specification-side first-occurrence filter ----------

/-- Canonical keep-the-first-occurrence filter under case-insensitive
identity; used to state the first-seen-order property of stage 6. -/
def firstSeen : List PyStr → List PyStr
  | [] => []
  | x :: xs => x :: firstSeen (xs.filter (fun y => decide (pyLower y ≠ pyLower x)))
termination_by l => l.length
decreasing_by
exact Nat.lt_succ_of_le (List.length_filter_le _ _)

-- ====================================================================
-- Rating store, prompt composer and generation orchestrator
-- (IngredientEngine.generate and friends).
--
-- The store file and the in-memory map are identified: the source
-- reloads the file at the start of every generate call and rewrites it
-- whole on every admitted update, so within the model a single Store
-- value plays both roles.  The external summarizer is a collaborator:
-- its outcomes (returned text or raised exception, and the result of
-- json.loads + float on a structured response) enter as oracle data.
-- ====================================================================

/-- One parsed structured record.  Only the health_safety_rating field is
ever interpreted by the engine; the other parsed fields are carried
opaquely. -/
structure RatingRecord where
  health_safety_rating : ℚ
  rest : List (PyStr × PyStr)
deriving DecidableEq

/-- The persistent rating cache (ingredx_cache.json): a dict from
lowered stripped name to parsed record, insertion-ordered. -/
abbrev Store := List (PyStr × RatingRecord)

def storeLookup (st : Store) (k : PyStr) : Option RatingRecord :=
  (st.find? (fun e => decide (e.1 = k))).map (fun e => e.2)

/-- Python dict assignment: replace in place if present, else append. -/
def storeInsert (st : Store) (k : PyStr) (v : RatingRecord) : Store :=
  if (st.find? (fun e => decide (e.1 = k))).isSome then
    st.map (fun e => if e.1 = k then (k, v) else e)
  else st ++ [(k, v)]

/-- Invariant of the Rating Store: every admitted record's rating lies
in the closed interval [0,1]. -/
def storeInv (st : Store) : Prop :=
  ∀ e ∈ st, 0 ≤ e.2.health_safety_rating ∧ e.2.health_safety_rating ≤ 1

structure ChatMsg where
  role : PyStr
  content : PyStr
deriving DecidableEq

-- ---------- Python %.2f formatting over exact rationals ----------

/-- Decimal digits of a natural number (fuel-structural). -/
def natDigitsRev (fuel n : Nat) : PyStr :=
  match fuel with
  | 0 => []
  | f + 1 => if n < 10 then [48 + n] else (48 + n % 10) :: natDigitsRev f (n / 10)

def natToStr (n : Nat) : PyStr := (natDigitsRev (n + 1) n).reverse

/-- Round 100*q half-to-even, as f-string .2f formatting does. -/
def centsOf (q : ℚ) : Int :=
  let num := q.num * 100
  let den : Int := (q.den : Int)
  let fl := Int.ediv num den
  let rem := num - fl * den
  if 2 * rem < den then fl
  else if den < 2 * rem then fl + 1
  else if Int.emod fl 2 = 0 then fl else fl + 1

/-- Python f-string {x:.2f} for the nonnegative ratings the engine
formats. -/
def fmt2 (q : ℚ) : PyStr :=
  let c := (centsOf q).toNat
  natToStr (c / 100) ++ [46] ++
    (if c % 100 < 10 then [48] else []) ++ natToStr (c % 100)

-- ---------- prompt composer ----------

/-- The rating_hint hard-constraint sentence injected when a rating is
already known. -/
def ratingHintText (name : PyStr) (r : ℚ) : PyStr :=
  pystr ("The ingredient \x27") ++ name ++
    pystr ("\x27 already has an established health safety rating of ") ++
    fmt2 r ++
    pystr (" on a scale of 0–1. You must use this exact value consistently.\n\n")

def ratingHint (name : PyStr) (known : Option ℚ) : PyStr :=
  match known with
  | some r => ratingHintText name r
  | none => []

def blurbTemplate (name lang : PyStr) : PyStr :=
  pystr ("You are a chemistry explainer. Write a MAX 2-sentence, layperson-friendly summary of \x27") ++
    name ++
    pystr ("\x27, focusing only on what it is, what it does, and any general safety considerations. Do NOT mention or reference any numeric ratings, decimals, or scores. Avoid jargon and keep it friendly.\n\nWrite in ") ++
    lang ++ pystr (".")

def overviewTemplate (name lang : PyStr) : PyStr :=
  pystr ("You are an expert chemist writing a scientifically grounded overview for laypeople about \x27") ++
    name ++
    pystr ("\x27. Include:\n1) Common synonyms/other names\n2) Chemical properties and function\n3) Common uses\n4) Safety and controversy information\n5) Environmental and regulatory considerations\n6) Overall decimal health-safety rating (0–1)\n7) Binary yes/no edible status\n\nUse the same rating if known.\nWrite clearly in ") ++
    lang ++ pystr (".")

def schemaTemplate (name : PyStr) : PyStr :=
  pystr ("You are an expert data annotator. Produce a JSON object (strict JSON format only) for \x27") ++
    name ++
    pystr ("\x27. The response must be a valid JSON object and nothing else.\nGenerate the following fields exactly:\n\x7b\n  \"chemical_properties\": \"description of physical and chemical characteristics\",\n  \"common_uses\": \"typical applications and industries where it is used\",\n  \"safety_and_controversy\": \"known toxicology, debates, or usage restrictions\",\n  \"environmental_and_regulation\": \"ecological effects and global regulatory status\",\n  \"health_safety_rating\": \"decimal between 0 and 1\",\n  \"edible\": \"true or false\"\n\x7d\n\nIf a health safety rating is already established, use the same number.\nReturn ONLY valid JSON with no commentary, explanation, or markdown.")

/-- IngredientEngine._build_chat_prompt: context from the last 8 turns. -/
def _build_chat_prompt (hist : List ChatMsg) (lang : PyStr) : PyStr :=
  let last8 := hist.drop (hist.length - 8)
  let ctx := List.intercalate [10]
    (last8.map (fun m => pyCapitalize m.role ++ pystr (": ") ++ m.content))
  pystr ("You are a friendly, scientifically accurate nutrition and chemistry assistant specializing in ingredients, their chemical properties, uses, safety, and environmental effects.\n\nConversation so far:\n") ++
    ctx ++
    pystr ("\n\nContinue the conversation naturally, focusing on things like:\nChemical Properties and Function\nCommon Uses\nSafety and Controversy\nEnvironmental and Regulatory Considerations\n\nor other fun facts!\n\nBe conversational but precise. Write in ") ++
    lang ++ pystr (".")

/-- IngredientEngine._build_generation_prompt; the unknown-mode branch
raises ValueError. -/
def _build_generation_prompt (hist : List ChatMsg)
    (ingredient_name mode language : PyStr) (known_rating : Option ℚ) :
    Except PyStr PyStr :=
  if mode = pystr ("blurb") then
    Except.ok (blurbTemplate ingredient_name language)
  else if mode = pystr ("overview") then
    Except.ok (ratingHint ingredient_name known_rating ++
      overviewTemplate ingredient_name language)
  else if mode = pystr ("schema") then
    Except.ok (ratingHint ingredient_name known_rating ++
      schemaTemplate ingredient_name)
  else if mode = pystr ("chat") then
    Except.ok (_build_chat_prompt hist language)
  else
    Except.error (pystr ("Unknown mode \x27") ++ mode ++ pystr ("\x27"))

-- ---------- generation orchestrator ----------

deriving instance DecidableEq for Except

/-- Outcomes of the external collaborator calls made during one generate
request: the main summarize call, the json.loads+float parse of its text
in schema mode, and in chat mode the chat-reply and suggestion calls. -/
structure GenOracle where
  main : Except PyStr PyStr
  parsed : Option RatingRecord
  chatMain : Except PyStr PyStr
  sugg : Except PyStr PyStr
deriving DecidableEq

structure GenResult where
  store : Store
  history : List ChatMsg
  text : PyStr
  promptUsed : PyStr
deriving DecidableEq

/-- The schema-mode admission block of generate: parse outcome and range
check; on success the store entry is replaced and the known rating
updated, otherwise both are unchanged. -/
def schemaAdmit (st : Store) (name_key : PyStr) (parsed : Option RatingRecord)
    (known : Option ℚ) : Store × Option ℚ :=
  match parsed with
  | some rec =>
    if 0 ≤ rec.health_safety_rating ∧ rec.health_safety_rating ≤ 1 then
      (storeInsert st name_key rec, some rec.health_safety_rating)
    else (st, known)
  | none => (st, known)

/-- IngredientEngine.generate.  The Store argument is the cache file at
call time (the source reloads it first thing); the returned store is the
file after the call.  Except.error models an uncaught exception. -/
def generate (st : Store) (hist : List ChatMsg)
    (ingredient_name mode output_language : PyStr) (o : GenOracle) :
    Except PyStr GenResult :=
  let name_key := pyStrip (pyLower ingredient_name)
  let known0 := (storeLookup st name_key).map (fun v => v.health_safety_rating)
  match _build_generation_prompt hist ingredient_name mode output_language known0 with
  | Except.error e => Except.error e
  | Except.ok prompt =>
    match o.main with
    | Except.error e => Except.error e
    | Except.ok text0 =>
      let admitted :=
        if mode = pystr ("schema") then schemaAdmit st name_key o.parsed known0
        else (st, known0)
      let text1 :=
        match admitted.2 with
        | some r =>
          if mode = pystr ("overview") then
            pyStrip text0 ++ pystr ("\n\n[Health Rating: ") ++ fmt2 r ++ pystr ("]")
          else text0
        | none => text0
      if mode = pystr ("chat") then
        let hist1 := hist ++ [⟨pystr ("user"), ingredient_name⟩]
        match o.chatMain with
        | Except.error e => Except.error e
        | Except.ok chatText =>
          let hist2 := hist1 ++ [⟨pystr ("assistant"), chatText⟩]
          match o.sugg with
          | Except.error e => Except.error e
          | Except.ok suggText =>
            Except.ok ⟨admitted.1, hist2,
              pyStrip chatText ++ pystr ("\n\n💡 Suggested follow-ups:\n") ++
                pyStrip suggText, prompt⟩
      else Except.ok ⟨admitted.1, hist, text1, prompt⟩

-- ---------- batch analyzer ----------

/-- Outcomes of the collaborator calls made by one per-ingredient unit of
analyze_ingredient_list: the two generate calls and the final
json.loads on the structured response text. -/
structure UnitOracle where
  blurbO : GenOracle
  schemaO : GenOracle
  jsonParsed : Option RatingRecord
  jsonErrMsg : PyStr
deriving DecidableEq

/-- The except-branch placeholder blurb f"[Error: {e}]". -/
def errBlurb (e : PyStr) : PyStr := pystr ("[Error: ") ++ e ++ pystr ("]")

/-- One iteration of the analyze loop: try both generate calls and the
json.loads, catching any exception at the unit boundary. -/
def analyzeUnit (st : Store) (ing lang : PyStr) (u : UnitOracle) :
    Store × PyStr × Option RatingRecord :=
  match generate st [] ing (pystr ("blurb")) lang u.blurbO with
  | Except.error e => (st, errBlurb e, none)
  | Except.ok bres =>
    match generate st [] ing (pystr ("schema")) lang u.schemaO with
    | Except.error e => (st, errBlurb e, none)
    | Except.ok sres =>
      match u.jsonParsed with
      | some rec => (sres.store, bres.text, some rec)
      | none => (sres.store, errBlurb u.jsonErrMsg, none)

structure BatchResult where
  ingredients : List PyStr
  blurbs : List (PyStr × PyStr)
  schemas : List (PyStr × Option RatingRecord)
deriving DecidableEq

/-- The analyze loop over the extracted names, threading the store and
consuming one per-ingredient oracle per name. -/
def analyzeGo (lang : PyStr) : Store → (Nat → UnitOracle) → List PyStr →
    List (PyStr × PyStr) × List (PyStr × Option RatingRecord)
  | _, _, [] => ([], [])
  | st, uo, ing :: rest =>
    let r := analyzeUnit st ing lang (uo 0)
    let tl := analyzeGo lang r.1 (fun n => uo (n + 1)) rest
    ((ing, r.2.1) :: tl.1, (ing, r.2.2) :: tl.2)

/-- IngredientEngine.analyze_ingredient_list; an empty record (schemas
value) is modelled as none. -/
def analyze_ingredient_list (st : Store) (raw lang : PyStr)
    (uo : Nat → UnitOracle) : Except PyStr BatchResult :=
  let ingredients := extract_ingredients_from_text raw
  if ingredients.isEmpty then Except.error (pystr ("No ingredient list found."))
  else
    let bs := analyzeGo lang st uo ingredients
    Except.ok ⟨ingredients, bs.1, bs.2⟩

/-- The store-independent view of one unit's (blurb, schema) outcome;
used to state that per-ingredient failures stay local to their unit. -/
def unitView (u : UnitOracle) : PyStr × Option RatingRecord :=
  match u.blurbO.main with
  | Except.error e => (errBlurb e, none)
  | Except.ok bt =>
    match u.schemaO.main with
    | Except.error e => (errBlurb e, none)
    | Except.ok _ =>
      match u.jsonParsed with
      | some rec => (bt, some rec)
      | none => (errBlurb u.jsonErrMsg, none)

-- ---------- statement helpers ----------

/-- pat occurs as a contiguous segment of l. -/
def containsSeg (pat l : PyStr) : Prop := ∃ s t, l = s ++ pat ++ t

/-- Case-insensitive substring occurrence of the (lowercase) word
"ingr", the mandatory literal seed of the fuzzy header regex. -/
def hasIngr : PyStr → Bool
  | [] => false
  | c :: r => startsWithCI (pystr ("ingr")) (c :: r) || hasIngr r

/-- Comma-join, the inverse direction of the idempotence property:
", ".join(names). -/
def joinComma : List PyStr → PyStr
  | [] => []
  | [n] => n
  | n :: ns => n ++ [44, 32] ++ joinComma ns

def goodChar (n : Nat) : Bool :=
  isAlphaA n || isDigitA n || decide (n = 32) || decide (n = 45)

/-- No two adjacent whitespace characters (Bool form). -/
def noWWb : PyStr → Bool
  | [] => true
  | [_] => true
  | a :: b :: r => !(isPyWs a && isPyWs b) && noWWb (b :: r)

def edgeOkC (n : Nat) : Bool := isAlphaA n || isDigitA n

/-- Names for which re-extraction of a comma-joined list is exact: made
of letters, digits, single spaces and interior hyphens, title-case
fixed, at least two characters, not purely numeric, not and/or, not
starting with a token-level boilerplate word, and free of the header
seed "ingr". -/
def goodName (n : PyStr) : Bool :=
  decide (2 ≤ n.length) && n.all goodChar && noWWb n &&
    (match n.head? with | some c => edgeOkC c | none => false) &&
    (match n.getLast? with | some c => edgeOkC c | none => false) &&
    decide (pyTitle n = n) && !isAllDigit n && !isBoiler3 n && !hasIngr n &&
    !decide (pyLower n = pystr ("and")) && !decide (pyLower n = pystr ("or"))

-- ---------- concrete scenario data for witnesses and counterexamples ----------

def demoRec : RatingRecord := ⟨mkRat 9 10, []⟩

/-- Oracle of a structured call whose response parses to rating 0.9. -/
def demoOracleSchema : GenOracle :=
  ⟨Except.ok (pystr ("\x7b...\x7d")), some demoRec, Except.ok [], Except.ok []⟩

/-- Oracle of a call returning plain text (no parseable record). -/
def demoOracleText (t : String) : GenOracle :=
  ⟨Except.ok (pystr t), none, Except.ok [], Except.ok []⟩

def fallbackRes : GenResult := ⟨[], [], [], []⟩

def okRes (e : Except PyStr GenResult) : GenResult :=
  match e with
  | Except.ok r => r
  | Except.error _ => fallbackRes

def demoRes1 : GenResult :=
  okRes (generate [] [] (pystr ("Salt")) (pystr ("schema")) (pystr ("en")) demoOracleSchema)

def demoRes2 : GenResult :=
  okRes (generate demoRes1.store [] (pystr (" SALT ")) (pystr ("overview")) (pystr ("en"))
    (demoOracleText "Salt is a mineral."))

def demoRes3 : GenResult :=
  okRes (generate demoRes1.store [] (pystr ("salt")) (pystr ("schema")) (pystr ("en"))
    (demoOracleText "not json"))

/-- Store already holding a 0.9 rating for salt. -/
def saltStore : Store := [(pystr ("salt"), demoRec)]

def c7res : GenResult :=
  okRes (generate saltStore [] (pystr ("Salt")) (pystr ("overview")) (pystr ("en"))
    (demoOracleText "Sodium chloride info."))

/-- Oracle of a structured call whose response parses to the
out-of-range rating 1.5. -/
def badOracle : GenOracle :=
  ⟨Except.ok (pystr ("\x7b...\x7d")), some ⟨mkRat 3 2, []⟩, Except.ok [], Except.ok []⟩

def badRes : GenResult :=
  okRes (generate [] [] (pystr ("Lead")) (pystr ("schema")) (pystr ("en")) badOracle)

/-- Unit oracles for the batch witness: first unit succeeds, second
raises in its blurb call, third fails the final json.loads. -/
def demoUnits : Nat → UnitOracle
  | 0 => ⟨demoOracleText "fine", demoOracleSchema, some demoRec, []⟩
  | 1 => ⟨⟨Except.error (pystr ("boom")), none, Except.ok [], Except.ok []⟩,
          demoOracleSchema, some demoRec, []⟩
  | _ => ⟨demoOracleText "fine", demoOracleText "not json", none, pystr ("bad json")⟩

def demoBatch : BatchResult :=
  match analyze_ingredient_list [] (pystr ("Salt, Pepper, Water")) (pystr ("en")) demoUnits with
  | Except.ok r => r
  | Except.error _ => ⟨[], [], []⟩

def demoBlurbRes : GenResult :=
  okRes (generate [] [] (pystr ("Salt")) (pystr ("blurb")) (pystr ("en"))
    (demoOracleText "A salty blurb."))

/-- No two adjacent whitespace characters (relation form). -/
def noWW (a b : Nat) : Prop := ¬(isPyWs a = true ∧ isPyWs b = true)

-- ====================================================================
-- Theorems
-- ====================================================================

-- ---------- stage-6 deduplication ----------

lemma dedupGo_subset :
    ∀ (l seen : List PyStr) (x : PyStr), x ∈ dedupGo seen l → x ∈ l := by
  intro l
  induction l with
  | nil => intro seen x hx; simp [dedupGo] at hx
  | cons a as ih =>
    intro seen x hx
    by_cases h : pyLower a ∈ seen
    · simp only [dedupGo, if_pos h] at hx
      exact List.mem_cons_of_mem _ (ih _ _ hx)
    · simp only [dedupGo, if_neg h, List.mem_cons] at hx
      rcases hx with rfl | hx
      · exact List.mem_cons_self _ _
      · exact List.mem_cons_of_mem _ (ih _ _ hx)

lemma dedupGo_nodup :
    ∀ (l seen : List PyStr),
      ((dedupGo seen l).map pyLower).Nodup ∧
        ∀ x ∈ dedupGo seen l, pyLower x ∉ seen := by
  intro l
  induction l with
  | nil => intro seen; simp [dedupGo]
  | cons a as ih =>
    intro seen
    by_cases h : pyLower a ∈ seen
    · simpa only [dedupGo, if_pos h] using ih seen
    · have h2 := ih (pyLower a :: seen)
      simp only [dedupGo, if_neg h]
      constructor
      · rw [List.map_cons, List.nodup_cons]
        constructor
        · intro hcon
          rcases List.mem_map.1 hcon with ⟨y, hy, hyeq⟩
          exact (h2.2 y hy) (hyeq ▸ List.mem_cons_self _ _)
        · exact h2.1
      · intro x hx
        rcases List.mem_cons.1 hx with rfl | hx
        · exact h
        · exact fun hc => (h2.2 x hx) (List.mem_cons_of_mem _ hc)

lemma dedupGo_eq_firstSeen :
    ∀ (l seen : List PyStr),
      dedupGo seen l =
        firstSeen (l.filter (fun y => decide (pyLower y ∉ seen))) := by
  intro l
  induction l with
  | nil => intro seen; simp [dedupGo, firstSeen]
  | cons a as ih =>
    intro seen
    by_cases h : pyLower a ∈ seen
    · simp only [dedupGo, if_pos h, List.filter_cons]
      have : (decide (pyLower a ∉ seen)) = false := by simpa using h
      rw [this]
      simp only [Bool.false_eq_true, if_false]
      exact ih seen
    · simp only [dedupGo, if_neg h, List.filter_cons]
      have : (decide (pyLower a ∉ seen)) = true := by simpa using h
      rw [this]
      simp only [if_true]
      rw [firstSeen]
      congr 1
      rw [ih (pyLower a :: seen), List.filter_filter]
      congr 1
      apply List.filter_congr
      intro y _
      by_cases hy : pyLower y = pyLower a
      · simp [hy]
      · by_cases hy2 : pyLower y ∈ seen <;> simp [hy, hy2]

lemma dedupGo_complete :
    ∀ (l seen : List PyStr) (x : PyStr), x ∈ l →
      pyLower x ∈ seen ∨ ∃ y ∈ dedupGo seen l, pyLower y = pyLower x := by
  intro l
  induction l with
  | nil => intro seen x hx; cases hx
  | cons a as ih =>
    intro seen x hx
    by_cases h : pyLower a ∈ seen
    · rcases List.mem_cons.1 hx with rfl | hx
      · exact Or.inl h
      · simpa only [dedupGo, if_pos h] using ih seen x hx
    · simp only [dedupGo, if_neg h]
      rcases List.mem_cons.1 hx with rfl | hx
      · exact Or.inr ⟨x, List.mem_cons_self _ _, rfl⟩
      · rcases ih (pyLower a :: seen) x hx with hmem | ⟨y, hy, hyeq⟩
        · rcases List.mem_cons.1 hmem with heq | hmem
          · exact Or.inr ⟨a, List.mem_cons_self _ _, heq.symm⟩
          · exact Or.inl hmem
        · exact Or.inr ⟨y, List.mem_cons_of_mem _ hy, hyeq⟩

lemma cleanedTokens_of_ws (raw : PyStr) (h : pyStrip raw = []) :
    cleanedTokens raw = [] := by
  have hn : normalizedText raw = [] := by
    unfold normalizedText
    rw [h]
    rfl
  unfold cleanedTokens sectionOf
  rw [hn]
  rfl

-- ---------- character-level lemmas ----------

lemma isPyWs_lowerC (c : Nat) : isPyWs (lowerC c) = isPyWs c := by
  unfold isPyWs lowerC
  split_ifs with h
  · rw [decide_eq_decide]
    omega
  · rfl

lemma isPyWs_upperC (c : Nat) : isPyWs (upperC c) = isPyWs c := by
  unfold isPyWs upperC
  split_ifs with h
  · rw [decide_eq_decide]
    omega
  · rfl

lemma isAlphaA_lowerC (c : Nat) : isAlphaA (lowerC c) = isAlphaA c := by
  unfold isAlphaA isUpperA isLowerA lowerC
  split_ifs with h
  · rw [Bool.eq_iff_iff]
    simp only [Bool.or_eq_true, decide_eq_true_eq]
    omega
  · rfl

lemma isAlphaA_upperC (c : Nat) : isAlphaA (upperC c) = isAlphaA c := by
  unfold isAlphaA isUpperA isLowerA upperC
  split_ifs with h
  · rw [Bool.eq_iff_iff]
    simp only [Bool.or_eq_true, decide_eq_true_eq]
    omega
  · rfl

lemma lowerC_lowerC (c : Nat) : lowerC (lowerC c) = lowerC c := by
  unfold lowerC
  split_ifs with h h2 <;> omega

lemma upperC_upperC (c : Nat) : upperC (upperC c) = upperC c := by
  unfold upperC
  split_ifs with h h2 <;> omega

lemma isPyWs_titleC (b : Bool) (c : Nat) : isPyWs (titleC b c) = isPyWs c := by
  unfold titleC
  split_ifs with h h2
  · exact isPyWs_lowerC c
  · exact isPyWs_upperC c
  · rfl

lemma isAlphaA_titleC (b : Bool) (c : Nat) : isAlphaA (titleC b c) = isAlphaA c := by
  unfold titleC
  split_ifs with h h2
  · exact isAlphaA_lowerC c
  · exact isAlphaA_upperC c
  · rfl

lemma titleC_titleC (b : Bool) (c : Nat) : titleC b (titleC b c) = titleC b c := by
  by_cases h : isAlphaA c = true
  · cases b with
    | true => simp [titleC, h, isAlphaA_lowerC, lowerC_lowerC]
    | false => simp [titleC, h, isAlphaA_upperC, upperC_upperC]
  · simp [titleC, h]

lemma lowerC_ne_46 (c : Nat) (h : c ≠ 46) : lowerC c ≠ 46 := by
  unfold lowerC
  split_ifs with h1 <;> omega

lemma upperC_ne_46 (c : Nat) (h : c ≠ 46) : upperC c ≠ 46 := by
  unfold upperC
  split_ifs with h1 <;> omega

lemma titleC_ne_46 (b : Bool) (c : Nat) (h : c ≠ 46) : titleC b c ≠ 46 := by
  unfold titleC
  split_ifs with h1 h2
  · exact lowerC_ne_46 c h
  · exact upperC_ne_46 c h
  · exact h

lemma isEdgeStrip_lowerC (c : Nat) : isEdgeStrip (lowerC c) = isEdgeStrip c := by
  unfold isEdgeStrip lowerC
  split_ifs with h
  · rw [decide_eq_decide]
    omega
  · rfl

lemma isEdgeStrip_upperC (c : Nat) : isEdgeStrip (upperC c) = isEdgeStrip c := by
  unfold isEdgeStrip upperC
  split_ifs with h
  · rw [decide_eq_decide]
    omega
  · rfl

lemma isEdgeStrip_titleC (b : Bool) (c : Nat) :
    isEdgeStrip (titleC b c) = isEdgeStrip c := by
  unfold titleC
  split_ifs with h1 h2
  · exact isEdgeStrip_lowerC c
  · exact isEdgeStrip_upperC c
  · rfl

-- ---------- generic list machinery ----------

lemma chain'_of_append_left {R : Nat → Nat → Prop} {l₁ l₂ : PyStr}
    (h : List.Chain' R (l₁ ++ l₂)) : List.Chain' R l₁ :=
  (List.chain'_append.1 h).1

lemma chain'_of_append_right {R : Nat → Nat → Prop} {l₁ l₂ : PyStr}
    (h : List.Chain' R (l₁ ++ l₂)) : List.Chain' R l₂ :=
  (List.chain'_append.1 h).2.1

lemma dropWhile_decomp (p : Nat → Bool) (l : PyStr) :
    ∃ pre, l = pre ++ l.dropWhile p := by
  rcases List.dropWhile_suffix (l := l) p with ⟨pre, h⟩
  exact ⟨pre, h.symm⟩

lemma dropTrail_decomp (p : Nat → Bool) (l : PyStr) :
    ∃ post, l = dropTrailWhile p l ++ post := by
  unfold dropTrailWhile
  rcases List.dropWhile_suffix (l := l.reverse) p with ⟨pre, h⟩
  refine ⟨pre.reverse, ?_⟩
  have h2 := congrArg List.reverse h
  simpa using h2.symm

lemma pyStripWith_decomp (p : Nat → Bool) (l : PyStr) :
    ∃ pre post, l = pre ++ (pyStripWith p l ++ post) := by
  rcases dropWhile_decomp p l with ⟨pre, h1⟩
  rcases dropTrail_decomp p (l.dropWhile p) with ⟨post, h2⟩
  refine ⟨pre, post, ?_⟩
  conv_lhs => rw [h1, h2]
  rfl

lemma pyStripWith_chain' {R : Nat → Nat → Prop} (p : Nat → Bool) (l : PyStr)
    (h : List.Chain' R l) : List.Chain' R (pyStripWith p l) := by
  rcases pyStripWith_decomp p l with ⟨pre, post, hd⟩
  rw [hd] at h
  exact chain'_of_append_left (chain'_of_append_right h)

lemma pyStripWith_mem (p : Nat → Bool) (l : PyStr) :
    ∀ x ∈ pyStripWith p l, x ∈ l := by
  rcases pyStripWith_decomp p l with ⟨pre, post, hd⟩
  intro x hx
  rw [hd]
  simp only [List.mem_append]
  exact Or.inr (Or.inl hx)

lemma dropWhile_head (p : Nat → Bool) :
    ∀ (l : PyStr), ∀ a ∈ (l.dropWhile p).head?, p a = false := by
  intro l
  induction l with
  | nil => intro a ha; simp at ha
  | cons c r ih =>
    intro a ha
    by_cases h : p c = true
    · rw [List.dropWhile_cons_of_pos h] at ha
      exact ih a ha
    · rw [List.dropWhile_cons_of_neg h] at ha
      simp at ha
      rw [← ha]
      simpa using h

lemma dropWhile_eq_self_of_head (p : Nat → Bool) (l : PyStr)
    (h : ∀ a ∈ l.head?, p a = false) : l.dropWhile p = l := by
  cases l with
  | nil => rfl
  | cons a r =>
    have ha : p a = false := h a (by simp)
    rw [List.dropWhile_cons_of_neg (by simp [ha])]

lemma pyStripWith_eq_self (p : Nat → Bool) (l : PyStr)
    (hh : ∀ a ∈ l.head?, p a = false) (hl : ∀ a ∈ l.getLast?, p a = false) :
    pyStripWith p l = l := by
  unfold pyStripWith dropTrailWhile
  rw [dropWhile_eq_self_of_head p l hh]
  rw [dropWhile_eq_self_of_head p l.reverse (by
    intro a ha
    rw [List.head?_reverse] at ha
    exact hl a ha)]
  exact List.reverse_reverse l

lemma pyStripWith_head (p : Nat → Bool) (l : PyStr) :
    ∀ a ∈ (pyStripWith p l).head?, p a = false := by
  intro a ha
  rcases dropTrail_decomp p (l.dropWhile p) with ⟨post, hd⟩
  cases hres : pyStripWith p l with
  | nil => rw [hres] at ha; simp at ha
  | cons b t =>
    rw [hres] at ha
    simp at ha
    have hb : (l.dropWhile p).head? = some b := by
      unfold pyStripWith at hres
      rw [hd, hres]
      rfl
    rw [← ha]
    exact dropWhile_head p l b (by rw [hb]; rfl)

lemma pyStripWith_last (p : Nat → Bool) (l : PyStr) :
    ∀ a ∈ (pyStripWith p l).getLast?, p a = false := by
  intro a ha
  unfold pyStripWith dropTrailWhile at ha
  rw [List.getLast?_reverse] at ha
  exact dropWhile_head p _ a ha

-- ---------- whitespace-collapse output shape ----------

lemma wsFlush_small (pending : PyStr) :
    wsFlush pending = [] ∨ ∃ c, wsFlush pending = [c] := by
  cases pending with
  | nil => exact Or.inl (by simp [wsFlush])
  | cons a t =>
    cases t with
    | nil => exact Or.inr ⟨a, by simp [wsFlush]⟩
    | cons b r => exact Or.inr ⟨32, by simp [wsFlush]⟩

lemma wsFlush_mem (pending : PyStr) :
    ∀ x ∈ wsFlush pending, x ∈ pending ∨ x = 32 := by
  unfold wsFlush
  split_ifs with h
  · intro x hx
    simp at hx
    exact Or.inr hx
  · intro x hx
    exact Or.inl hx

lemma collapseGo_chain' :
    ∀ (l pending : PyStr), List.Chain' noWW (collapseGo pending l) := by
  intro l
  induction l with
  | nil =>
    intro pending
    rcases wsFlush_small pending with h | ⟨c, h⟩ <;> simp [collapseGo, h]
  | cons c r ih =>
    intro pending
    by_cases hc : isPyWs c = true
    · simpa [collapseGo, hc] using ih (pending ++ [c])
    · rw [show collapseGo pending (c :: r) =
          wsFlush pending ++ (c :: collapseGo [] r) from by simp [collapseGo, hc]]
      apply List.chain'_append.2
      refine ⟨?_, ?_, ?_⟩
      · rcases wsFlush_small pending with h | ⟨d, h⟩ <;> simp [h]
      · rw [List.chain'_cons']
        exact ⟨fun y _ => fun hcon => hc hcon.1, ih []⟩
      · intro x _ y hy
        simp at hy
        subst hy
        exact fun hcon => hc hcon.2

lemma collapseGo_mem :
    ∀ (l pending : PyStr) (x : Nat),
      x ∈ collapseGo pending l → x ∈ pending ∨ x ∈ l ∨ x = 32 := by
  intro l
  induction l with
  | nil =>
    intro pending x hx
    rcases wsFlush_mem pending x (by simpa [collapseGo] using hx) with h | h
    · exact Or.inl h
    · exact Or.inr (Or.inr h)
  | cons c r ih =>
    intro pending x hx
    by_cases hc : isPyWs c = true
    · rw [show collapseGo pending (c :: r) = collapseGo (pending ++ [c]) r from
        by simp [collapseGo, hc]] at hx
      rcases ih (pending ++ [c]) x hx with h | h | h
      · rcases List.mem_append.1 h with h | h
        · exact Or.inl h
        · simp at h
          exact Or.inr (Or.inl (by simp [h]))
      · exact Or.inr (Or.inl (List.mem_cons_of_mem _ h))
      · exact Or.inr (Or.inr h)
    · rw [show collapseGo pending (c :: r) =
          wsFlush pending ++ (c :: collapseGo [] r) from by simp [collapseGo, hc]] at hx
      rcases List.mem_append.1 hx with h | h
      · rcases wsFlush_mem pending x h with h2 | h2
        · exact Or.inl h2
        · exact Or.inr (Or.inr h2)
      · rcases List.mem_cons.1 h with rfl | h2
        · exact Or.inr (Or.inl (List.mem_cons_self _ _))
        · rcases ih [] x h2 with h3 | h3 | h3
          · cases h3
          · exact Or.inr (Or.inl (List.mem_cons_of_mem _ h3))
          · exact Or.inr (Or.inr h3)

-- ---------- splitTop lemmas ----------

lemma splitTop_ne_nil : ∀ l : PyStr, splitTop l ≠ [] := by
  intro l
  cases l with
  | nil => simp [splitTop]
  | cons c r =>
    unfold splitTop
    split_ifs with h
    · simp
    · cases hs : splitTop r with
      | nil => simp
      | cons t ts => simp

lemma splitTop_mem :
    ∀ (l t : PyStr), t ∈ splitTop l → ∀ x ∈ t, x ∈ l := by
  intro l
  induction l with
  | nil =>
    intro t ht x hx
    simp [splitTop] at ht
    subst ht
    cases hx
  | cons c r ih =>
    intro t ht x hx
    unfold splitTop at ht
    split_ifs at ht with h
    · rcases List.mem_cons.1 ht with rfl | ht
      · cases hx
      · exact List.mem_cons_of_mem _ (ih t ht x hx)
    · cases hs : splitTop r with
      | nil => exact absurd hs (splitTop_ne_nil r)
      | cons t0 ts =>
        rw [hs] at ht
        rcases List.mem_cons.1 ht with rfl | ht
        · rcases List.mem_cons.1 hx with rfl | hx
          · exact List.mem_cons_self _ _
          · exact List.mem_cons_of_mem _
              (ih t0 (by rw [hs]; exact List.mem_cons_self _ _) x hx)
        · exact List.mem_cons_of_mem _
            (ih t (by rw [hs]; exact List.mem_cons_of_mem _ ht) x hx)

lemma splitTop_chain' {R : Nat → Nat → Prop} :
    ∀ l : PyStr, List.Chain' R l → ∀ t ∈ splitTop l, List.Chain' R t := by
  intro l
  induction l with
  | nil =>
    intro _ t ht
    simp [splitTop] at ht
    subst ht
    exact List.chain'_nil
  | cons c r ih =>
    intro h t ht
    have hr : List.Chain' R r := h.tail
    unfold splitTop at ht
    split_ifs at ht with hcond
    · rcases List.mem_cons.1 ht with rfl | ht
      · exact List.chain'_nil
      · exact ih hr t ht
    · cases hs : splitTop r with
      | nil => exact absurd hs (splitTop_ne_nil r)
      | cons t0 ts =>
        rw [hs] at ht
        rcases List.mem_cons.1 ht with rfl | ht
        · rw [List.chain'_cons']
          constructor
          · intro y hy
            cases r with
            | nil =>
              simp [splitTop] at hs
              rw [hs.1] at hy
              simp at hy
            | cons d r' =>
              by_cases hd : (decide (d = 44) && !nextParenClose r') = true
              · rw [show splitTop (d :: r') = [] :: splitTop r' from
                  by simp only [splitTop]; rw [if_pos hd]] at hs
                injection hs with e1 e2
                rw [← e1] at hy
                simp at hy
              · cases hs2 : splitTop r' with
                | nil => exact absurd hs2 (splitTop_ne_nil r')
                | cons t1 ts1 =>
                  rw [show splitTop (d :: r') = (d :: t1) :: ts1 from
                    by simp only [splitTop]; rw [if_neg hd, hs2]] at hs
                  injection hs with e1 e2
                  rw [← e1] at hy
                  simp at hy
                  subst hy
                  exact (List.chain'_cons.1 h).1
          · exact ih hr t0 (by rw [hs]; exact List.mem_cons_self _ _)
        · exact ih hr t (by rw [hs]; exact List.mem_cons_of_mem _ ht)

-- ---------- title-case lemmas ----------

lemma titleGo_head? (b : Bool) (l : PyStr) :
    (titleGo b l).head? = l.head?.map (titleC b) := by
  cases l <;> rfl

lemma titleGo_ne_46 :
    ∀ (l : PyStr) (b : Bool), (∀ c ∈ l, c ≠ 46) → ∀ c ∈ titleGo b l, c ≠ 46 := by
  intro l
  induction l with
  | nil => intro b _ c hc; cases hc
  | cons a r ih =>
    intro b h c hc
    rcases List.mem_cons.1 hc with rfl | hc
    · exact titleC_ne_46 b a (h a (List.mem_cons_self _ _))
    · exact ih _ (fun x hx => h x (List.mem_cons_of_mem _ hx)) c hc

lemma titleGo_chain'_noWW :
    ∀ (l : PyStr) (b : Bool), List.Chain' noWW l → List.Chain' noWW (titleGo b l) := by
  intro l
  induction l with
  | nil => intro b _; exact List.chain'_nil
  | cons c r ih =>
    intro b h
    show List.Chain' noWW (titleC b c :: titleGo (isAlphaA c) r)
    rw [List.chain'_cons']
    refine ⟨?_, ih _ h.tail⟩
    intro y hy
    rw [titleGo_head? (isAlphaA c) r] at hy
    cases r with
    | nil => simp at hy
    | cons d r' =>
      simp at hy
      subst hy
      have hcd : noWW c d := (List.chain'_cons.1 h).1
      intro hcon
      exact hcd ⟨by rw [← isPyWs_titleC b c]; exact hcon.1,
        by rw [← isPyWs_titleC (isAlphaA c) d]; exact hcon.2⟩

lemma titleGo_idem :
    ∀ (l : PyStr) (b : Bool), titleGo b (titleGo b l) = titleGo b l := by
  intro l
  induction l with
  | nil => intro b; rfl
  | cons c r ih =>
    intro b
    show titleGo b (titleC b c :: titleGo (isAlphaA c) r) =
      titleC b c :: titleGo (isAlphaA c) r
    show titleC b (titleC b c) :: titleGo (isAlphaA (titleC b c)) (titleGo (isAlphaA c) r) = _
    rw [titleC_titleC, isAlphaA_titleC, ih]

lemma pyTitle_idem (l : PyStr) : pyTitle (pyTitle l) = pyTitle l :=
  titleGo_idem l false

lemma titleGo_getLast :
    ∀ (l : PyStr) (b : Bool) (a : Nat), (titleGo b l).getLast? = some a →
      ∃ b2 c, l.getLast? = some c ∧ a = titleC b2 c := by
  intro l
  induction l with
  | nil => intro b a ha; simp [titleGo] at ha
  | cons c r ih =>
    intro b a ha
    cases r with
    | nil =>
      simp only [titleGo] at ha
      simp at ha
      exact ⟨b, c, rfl, ha.symm⟩
    | cons d r' =>
      have hstep : titleGo b (c :: d :: r') =
          titleC b c :: titleGo (isAlphaA c) (d :: r') := rfl
      rw [hstep] at ha
      have hcons : titleGo (isAlphaA c) (d :: r') =
          titleC (isAlphaA c) d :: titleGo (isAlphaA d) r' := rfl
      rw [hcons, List.getLast?_cons_cons] at ha
      rw [← hcons] at ha
      rcases ih (isAlphaA c) a ha with ⟨b2, e, he, hae⟩
      exact ⟨b2, e, by rw [List.getLast?_cons_cons]; exact he, hae⟩

-- ---------- sub-token split triviality and stage-4 output shape ----------

lemma subSplitGo_trivial :
    ∀ (l : PyStr) (pp p : Option Nat),
      (∀ c ∈ l, c ≠ 46) → List.Chain' noWW l → subSplitGo pp p false l = [l] := by
  intro l
  induction l with
  | nil => intro pp p _ _; rfl
  | cons c r ih =>
    intro pp p h46 hww
    have hrec := ih p (some c) (fun x hx => h46 x (List.mem_cons_of_mem _ hx)) hww.tail
    have h3 : ¬((decide (c = 46) && !lookbehindCap pp p) = true) := by
      simp [h46 c (List.mem_cons_self _ _)]
    cases r with
    | nil =>
      show subSplitGo pp p false [c] = [[c]]
      unfold subSplitGo
      rw [if_neg (by simp), if_neg (by simp), if_neg h3, hrec]
    | cons d r' =>
      have hnd : ¬(isPyWs c = true ∧ isPyWs d = true) := (List.chain'_cons.1 hww).1
      show subSplitGo pp p false (c :: d :: r') = [c :: d :: r']
      unfold subSplitGo
      rw [if_neg (by simp), if_neg (by
        intro hcon
        simp only [Bool.not_false, Bool.true_and, Bool.and_eq_true] at hcon
        exact hnd ⟨hcon.1, hcon.2⟩), if_neg h3, hrec]

lemma foldDelims_ne_46 (l : PyStr) : ∀ x ∈ foldDelims l, x ≠ 46 := by
  intro x hx
  rcases List.mem_map.1 hx with ⟨c, _, hc⟩
  by_cases h : c = 59 ∨ c = 47 ∨ c = 46 <;> simp [h] at hc <;> omega

lemma scrubC_ne_46 (l : PyStr) (h : ∀ c ∈ l, c ≠ 46) : ∀ x ∈ scrubC l, x ≠ 46 := by
  intro x hx
  rcases List.mem_map.1 hx with ⟨c, hcl, hc⟩
  by_cases hk : isKeep4 c = true
  · rw [if_pos hk] at hc
    exact hc ▸ h c hcl
  · rw [if_neg hk] at hc
    omega

lemma stage4_ne_46 (sec : PyStr) : ∀ x ∈ stage4 sec, x ≠ 46 := by
  intro x hx
  unfold stage4 at hx
  have hx2 := pyStripWith_mem _ _ x hx
  unfold collapseWs at hx2
  rcases collapseGo_mem _ [] x hx2 with h | h | h
  · cases h
  · exact scrubC_ne_46 _ (foldDelims_ne_46 _) x h
  · omega

lemma stage4_chain' (sec : PyStr) : List.Chain' noWW (stage4 sec) :=
  pyStripWith_chain' _ _ (collapseGo_chain' _ [])

-- ---------- cleanPart output shape ----------

lemma stripEdge_title_fix (x : PyStr) :
    stripEdge (pyTitle (stripEdge x)) = pyTitle (stripEdge x) := by
  apply pyStripWith_eq_self
  · intro a ha
    rw [pyTitle, titleGo_head?] at ha
    cases hy : (stripEdge x).head? with
    | none => rw [hy] at ha; simp at ha
    | some b =>
      rw [hy] at ha
      simp at ha
      rw [← ha, isEdgeStrip_titleC]
      exact pyStripWith_head isEdgeStrip x b (by
        unfold stripEdge at hy
        rw [hy]
        rfl)
  · intro a ha
    have ha2 : (pyTitle (stripEdge x)).getLast? = some a := ha
    rcases titleGo_getLast _ _ _ ha2 with ⟨b2, c, hc, hac⟩
    rw [hac, isEdgeStrip_titleC]
    exact pyStripWith_last isEdgeStrip x c (by
      unfold stripEdge at hc
      rw [hc]
      rfl)

lemma cleanPart_shape (p0 : PyStr) (h46 : ∀ c ∈ p0, c ≠ 46)
    (hww : List.Chain' noWW p0) :
    ∀ s ∈ cleanPart p0,
      2 ≤ s.length ∧ pyTitle s = s ∧ isBoiler3 s = false ∧
        isAllDigit s = false ∧ pyLower s ≠ pystr ("and") ∧
        pyLower s ≠ pystr ("or") := by
  intro s hs
  unfold cleanPart at hs
  by_cases hcond :
      (decide (1 < (pyTitle (stripEdge p0)).length) &&
        !isAllDigit (pyTitle (stripEdge p0)) &&
        !isBoiler3 (pyTitle (stripEdge p0))) = true
  · rw [if_pos hcond] at hs
    have hp46 : ∀ c ∈ pyTitle (stripEdge p0), c ≠ 46 :=
      titleGo_ne_46 _ false (fun c hc => h46 c (pyStripWith_mem _ _ c hc))
    have hpww : List.Chain' noWW (pyTitle (stripEdge p0)) :=
      titleGo_chain'_noWW _ false (pyStripWith_chain' _ _ hww)
    rw [subSplitGo_trivial _ none none hp46 hpww] at hs
    set p := pyTitle (stripEdge p0) with hp
    have hsp : stripEdge p = p := stripEdge_title_fix p0
    have htp : pyTitle p = p := by rw [hp]; exact pyTitle_idem _
    simp only [List.filterMap_cons, List.filterMap_nil] at hs
    rw [hsp, htp] at hs
    by_cases hinner :
        (decide (1 < p.length) && !decide (pyLower p = pystr ("and")) &&
          !decide (pyLower p = pystr ("or"))) = true
    · rw [if_pos hinner] at hs
      simp at hs
      subst hs
      simp only [Bool.and_eq_true, decide_eq_true_eq, Bool.not_eq_true',
        decide_eq_false_iff_not] at hcond hinner
      refine ⟨by omega, htp, ?_, ?_, by simpa using hinner.1.2, by simpa using hinner.2⟩
      · exact hcond.2
      · exact hcond.1.2
    · rw [if_neg hinner] at hs
      simp at hs
  · rw [if_neg hcond] at hs
    cases hs

/-- Shape of every extracted name: at least two characters, fixed under
title-casing, not purely numeric, not starting with one of the three
token-filter marker words, and not and/or. -/
lemma extract_shape (raw : PyStr) :
    ∀ s ∈ extract_ingredients_from_text raw,
      2 ≤ s.length ∧ pyTitle s = s ∧ isBoiler3 s = false ∧
        isAllDigit s = false ∧ pyLower s ≠ pystr ("and") ∧
        pyLower s ≠ pystr ("or") := by
  intro s hs
  unfold extract_ingredients_from_text at hs
  split_ifs at hs with h
  · cases hs
  · have hs2 := dedupGo_subset _ _ _ hs
    unfold cleanedTokens at hs2
    cases hsec : sectionOf raw with
    | none => rw [hsec] at hs2; cases hs2
    | some sec =>
      rw [hsec] at hs2
      rcases List.mem_flatMap.1 hs2 with ⟨p0, hp0, hsp⟩
      exact cleanPart_shape p0 (fun c hc => stage4_ne_46 sec c (splitTop_mem _ _ hp0 c hc))
        (splitTop_chain' _ (stage4_chain' sec) p0 hp0) s hsp

/-- Claim C3: for every input string, extract returns a list with no two
names equal after lowercasing, and the names are exactly the first
occurrences (in order) of the case-insensitive identities of the cleaned
token sequence. -/
theorem extract_nodup_and_first_seen (raw : PyStr) :
    ((extract_ingredients_from_text raw).map pyLower).Nodup ∧
      extract_ingredients_from_text raw = firstSeen (cleanedTokens raw) ∧
      ∀ x ∈ cleanedTokens raw,
        ∃ y ∈ extract_ingredients_from_text raw, pyLower y = pyLower x := by
  unfold extract_ingredients_from_text
  by_cases h : (pyStrip raw).isEmpty
  · rw [if_pos h]
    have hc : cleanedTokens raw = [] :=
      cleanedTokens_of_ws raw (List.isEmpty_iff.1 h)
    rw [hc]
    exact ⟨List.nodup_nil, by rw [firstSeen], by intro x hx; cases hx⟩
  · rw [if_neg h]
    refine ⟨(dedupGo_nodup _ []).1, ?_, ?_⟩
    · rw [dedupGo_eq_firstSeen]
      congr 1
      apply List.filter_eq_self.2
      intro a _
      simp
    · intro x hx
      rcases dedupGo_complete (cleanedTokens raw) [] x hx with hmem | hy
      · cases hmem
      · exact hy


-- ---------- Claim C8 ----------

/-- Claim C8 counterexample: in the headerless path no boilerplate
truncation runs and the token filter only tests
contains|manufactured|warning, so the marker word "nutrition" survives
extraction as a name (equal to the marker word up to case). -/
theorem boiler_filter_cx :
    pystr ("Nutrition") ∈
        extract_ingredients_from_text (pystr ("Salt, Nutrition, Pepper")) ∧
      pyLower (pystr ("Nutrition")) = pystr ("nutrition") := by
  exact ⟨by decide, by decide⟩

/-- Claim C8 (amended): the splitting-and-cleaning stage discards every
token that is empty (shorter than two characters), purely numeric, or
starting case-insensitively with one of the three token-level marker
words contains, manufactured, warning; hence no extracted name is empty,
purely numeric, or begins with (in particular equals) one of those
three.  The other five marker words of the header-truncation list
(nutrition, distributed, may contain, allergen, storage) are not
filtered at token level. -/
theorem boiler_filter_amended (raw s : PyStr)
    (h : s ∈ extract_ingredients_from_text raw) :
    2 ≤ s.length ∧ isAllDigit s = false ∧ isBoiler3 s = false :=
  ⟨(extract_shape raw s h).1, (extract_shape raw s h).2.2.2.1,
    (extract_shape raw s h).2.2.1⟩

theorem boiler_filter_amended_w :
    pystr ("Salt") ∈ extract_ingredients_from_text (pystr ("Salt, Pepper, Water")) ∧
      2 ≤ (pystr ("Salt")).length ∧ isAllDigit (pystr ("Salt")) = false ∧
        isBoiler3 (pystr ("Salt")) = false :=
  ⟨by decide,
    boiler_filter_amended (pystr ("Salt, Pepper, Water")) (pystr ("Salt")) (by decide)⟩

-- ---------- Claim C5 ----------

/-- Claim C5 counterexample: the input "5, 6, 7." has no ingredients
header, three list delimiters and three words (so the claim's hypotheses
hold), yet extraction returns the empty list: every token is purely
numeric and is discarded by the cleaning filter. -/
theorem headerless_cx :
    findHeader (normalizedText (pystr ("5, 6, 7."))) = none ∧
      2 ≤ (normalizedText (pystr ("5, 6, 7."))).countP isListDelim ∧
      wordCount (normalizedText (pystr ("5, 6, 7."))) < 80 ∧
      extract_ingredients_from_text (pystr ("5, 6, 7.")) = [] := by
  exact ⟨by decide, by decide, by decide, by decide⟩

lemma sectionOfText_headerless (text : PyStr) (h1 : findHeader text = none)
    (h2 : 2 ≤ text.countP isListDelim) (h3 : wordCount text < 80) :
    sectionOfText text = some text := by
  have hne : text.isEmpty = false := by
    cases hn : text with
    | nil => exfalso; rw [hn, List.countP_nil] at h2; omega
    | cons a t => rfl
  unfold sectionOfText
  simp only [h1]
  rw [if_pos ⟨h2, h3⟩, if_neg (by simp [hne])]

/-- Claim C5 (amended): when no ingredients header is found and the
normalized text has at least two list delimiters and fewer than 80
words, headerless inference does trigger — the whole text becomes the
candidate section — and every extracted name is non-empty and
title-cased; but the extraction result itself may be empty when every
token is discarded (for example when all tokens are purely numeric), so
a non-empty result is not guaranteed. -/
theorem headerless_amended (raw : PyStr)
    (h1 : findHeader (normalizedText raw) = none)
    (h2 : 2 ≤ (normalizedText raw).countP isListDelim)
    (h3 : wordCount (normalizedText raw) < 80) :
    sectionOf raw = some (normalizedText raw) ∧
      ∀ s ∈ extract_ingredients_from_text raw, s ≠ [] ∧ pyTitle s = s := by
  constructor
  · exact sectionOfText_headerless _ h1 h2 h3
  · intro s hs
    have h := extract_shape raw s hs
    refine ⟨?_, h.2.1⟩
    intro hnil
    rw [hnil] at h
    simp at h

theorem headerless_amended_w :
    (findHeader (normalizedText (pystr ("Salt, Pepper, Water"))) = none ∧
        2 ≤ (normalizedText (pystr ("Salt, Pepper, Water"))).countP isListDelim ∧
        wordCount (normalizedText (pystr ("Salt, Pepper, Water"))) < 80) ∧
      sectionOf (pystr ("Salt, Pepper, Water")) =
        some (normalizedText (pystr ("Salt, Pepper, Water"))) ∧
      ∀ s ∈ extract_ingredients_from_text (pystr ("Salt, Pepper, Water")),
        s ≠ [] ∧ pyTitle s = s :=
  ⟨⟨by decide, by decide, by decide⟩,
    (headerless_amended _ (by decide) (by decide) (by decide)).1,
    (headerless_amended _ (by decide) (by decide) (by decide)).2⟩

-- ---------- Claim C4: counterexample ----------

/-- Claim C4 counterexample: extraction of "Ingredients: Water" yields
["Water"], but re-extracting the comma-join of that result yields the
empty list — a single bare name has neither a header nor two delimiters,
so every stage of section location fails.  The set of names is therefore
not preserved. -/
theorem extract_idem_cx :
    extract_ingredients_from_text (pystr ("Ingredients: Water")) = [pystr ("Water")] ∧
      extract_ingredients_from_text
        (joinComma (extract_ingredients_from_text (pystr ("Ingredients: Water")))) = [] ∧
      pystr ("Water") ∉ extract_ingredients_from_text
          (joinComma (extract_ingredients_from_text (pystr ("Ingredients: Water")))) := by
  exact ⟨by decide, by decide, by decide⟩


-- ---------- Claim C4: good-name machinery ----------

lemma joinComma_cons₂ (n m : PyStr) (rest : List PyStr) :
    joinComma (n :: m :: rest) = n ++ (44 :: 32 :: joinComma (m :: rest)) := by
  show n ++ [44, 32] ++ joinComma (m :: rest) = _
  rw [List.append_assoc]
  rfl

lemma goodChar_not_noise (c : Nat) (h : goodChar c = true) : isNoise c = false := by
  unfold goodChar isAlphaA isUpperA isLowerA isDigitA at h
  simp only [Bool.or_eq_true, decide_eq_true_eq] at h
  unfold isNoise
  simp only [decide_eq_false_iff_not]
  omega

lemma goodChar_not_delim (c : Nat) (h : goodChar c = true) : isListDelim c = false := by
  unfold goodChar isAlphaA isUpperA isLowerA isDigitA at h
  simp only [Bool.or_eq_true, decide_eq_true_eq] at h
  unfold isListDelim
  simp only [decide_eq_false_iff_not]
  omega

lemma goodChar_keep4 (c : Nat) (h : goodChar c = true) : isKeep4 c = true := by
  unfold goodChar isAlphaA isUpperA isLowerA isDigitA at h
  simp only [Bool.or_eq_true, decide_eq_true_eq] at h
  unfold isKeep4 isAlphaA isUpperA isLowerA isDigitA isPyWs
  simp only [Bool.or_eq_true, decide_eq_true_eq]
  omega

lemma goodChar_not_paren (c : Nat) (h : goodChar c = true) : c ≠ 40 ∧ c ≠ 41 := by
  unfold goodChar isAlphaA isUpperA isLowerA isDigitA at h
  simp only [Bool.or_eq_true, decide_eq_true_eq] at h
  omega

lemma goodChar_ne_44 (c : Nat) (h : goodChar c = true) : c ≠ 44 := by
  unfold goodChar isAlphaA isUpperA isLowerA isDigitA at h
  simp only [Bool.or_eq_true, decide_eq_true_eq] at h
  omega

lemma goodChar_ne_46 (c : Nat) (h : goodChar c = true) : c ≠ 46 := by
  unfold goodChar isAlphaA isUpperA isLowerA isDigitA at h
  simp only [Bool.or_eq_true, decide_eq_true_eq] at h
  omega

lemma edgeOkC_not_ws (c : Nat) (h : edgeOkC c = true) : isPyWs c = false := by
  unfold edgeOkC isAlphaA isUpperA isLowerA isDigitA at h
  simp only [Bool.or_eq_true, decide_eq_true_eq] at h
  unfold isPyWs
  simp only [decide_eq_false_iff_not]
  omega

lemma edgeOkC_not_edge (c : Nat) (h : edgeOkC c = true) : isEdgeStrip c = false := by
  unfold edgeOkC isAlphaA isUpperA isLowerA isDigitA at h
  simp only [Bool.or_eq_true, decide_eq_true_eq] at h
  unfold isEdgeStrip
  simp only [decide_eq_false_iff_not]
  omega

lemma noWWb_chain' : ∀ l : PyStr, noWWb l = true → List.Chain' noWW l := by
  intro l
  induction l with
  | nil => intro _; exact List.chain'_nil
  | cons a r ih =>
    intro h
    cases r with
    | nil => exact List.chain'_singleton a
    | cons b r' =>
      unfold noWWb at h
      simp only [Bool.and_eq_true, Bool.not_eq_true', Bool.and_eq_false_iff] at h
      rw [List.chain'_cons]
      refine ⟨?_, ih h.2⟩
      intro hcon
      rcases h.1 with h1 | h1
      · rw [hcon.1] at h1; cases h1
      · rw [hcon.2] at h1; cases h1

lemma chain'_of_mem_left {R : Nat → Nat → Prop} :
    ∀ l : PyStr, (∀ a ∈ l, ∀ b, R a b) → List.Chain' R l := by
  intro l
  induction l with
  | nil => intro _; exact List.chain'_nil
  | cons a r ih =>
    intro h
    rw [List.chain'_cons']
    exact ⟨fun y _ => h a (List.mem_cons_self _ _) y,
      ih (fun x hx => h x (List.mem_cons_of_mem _ hx))⟩

/-- Unpack the goodName conjunction. -/
lemma goodName_spec (n : PyStr) (h : goodName n = true) :
    2 ≤ n.length ∧ (∀ c ∈ n, goodChar c = true) ∧ List.Chain' noWW n ∧
      (∀ a ∈ n.head?, edgeOkC a = true) ∧ (∀ a ∈ n.getLast?, edgeOkC a = true) ∧
      pyTitle n = n ∧ isAllDigit n = false ∧ isBoiler3 n = false ∧
      hasIngr n = false ∧ pyLower n ≠ pystr ("and") ∧ pyLower n ≠ pystr ("or") := by
  unfold goodName at h
  simp only [Bool.and_eq_true, decide_eq_true_eq, Bool.not_eq_true',
    List.all_eq_true] at h
  obtain ⟨⟨⟨⟨⟨⟨⟨⟨⟨⟨hlen, hall⟩, hww⟩, hhd⟩, htl⟩, hti⟩, hdig⟩, hboil⟩, hingr⟩, hand⟩, hor⟩ := h
  refine ⟨hlen, hall, noWWb_chain' n hww, ?_, ?_, hti, hdig, hboil, hingr, ?_, ?_⟩
  · intro a ha
    cases hh : n.head? with
    | none => rw [hh] at ha; cases ha
    | some c =>
      rw [hh] at ha hhd
      simp at ha
      rw [← ha]
      simpa using hhd
  · intro a ha
    cases hh : n.getLast? with
    | none => rw [hh] at ha; cases ha
    | some c =>
      rw [hh] at ha htl
      simp at ha
      rw [← ha]
      simpa using htl
  · simpa using hand
  · simpa using hor

lemma joinComma_mem :
    ∀ ns : List PyStr, ∀ x ∈ joinComma ns,
      (∃ n ∈ ns, x ∈ n) ∨ x = 44 ∨ x = 32 := by
  intro ns
  induction ns with
  | nil => intro x hx; cases hx
  | cons n tl ih =>
    intro x hx
    cases tl with
    | nil =>
      exact Or.inl ⟨n, List.mem_cons_self _ _, hx⟩
    | cons m rest =>
      rw [joinComma_cons₂] at hx
      rcases List.mem_append.1 hx with h | h
      · exact Or.inl ⟨n, List.mem_cons_self _ _, h⟩
      · rcases List.mem_cons.1 h with rfl | h
        · exact Or.inr (Or.inl rfl)
        · rcases List.mem_cons.1 h with rfl | h
          · exact Or.inr (Or.inr rfl)
          · rcases ih x h with ⟨n2, hn2, hxn2⟩ | h2
            · exact Or.inl ⟨n2, List.mem_cons_of_mem _ hn2, hxn2⟩
            · exact Or.inr h2

lemma joinComma_ne_nil :
    ∀ ns : List PyStr, ns ≠ [] → (∀ n ∈ ns, n ≠ []) → joinComma ns ≠ [] := by
  intro ns
  cases ns with
  | nil => intro h _; exact absurd rfl h
  | cons n tl =>
    intro _ hne
    cases tl with
    | nil => exact hne n (List.mem_cons_self _ _)
    | cons m rest =>
      rw [joinComma_cons₂]
      intro hcon
      rcases List.append_eq_nil.1 hcon with ⟨_, h2⟩
      cases h2

lemma joinComma_head_prop (P : Nat → Prop) :
    ∀ ns : List PyStr, (∀ n ∈ ns, ∀ a ∈ n.head?, P a) → (∀ n ∈ ns, n ≠ []) →
      ∀ a ∈ (joinComma ns).head?, P a := by
  intro ns
  cases ns with
  | nil => intro _ _ a ha; cases ha
  | cons n tl =>
    intro hp hne a ha
    cases tl with
    | nil => exact hp n (List.mem_cons_self _ _) a ha
    | cons m rest =>
      rw [joinComma_cons₂,
        List.head?_append_of_ne_nil n (hne n (List.mem_cons_self _ _))] at ha
      exact hp n (List.mem_cons_self _ _) a ha

lemma joinComma_last_prop (P : Nat → Prop) :
    ∀ ns : List PyStr, (∀ n ∈ ns, ∀ a ∈ n.getLast?, P a) → (∀ n ∈ ns, n ≠ []) →
      ∀ a ∈ (joinComma ns).getLast?, P a := by
  intro ns
  induction ns with
  | nil => intro _ _ a ha; cases ha
  | cons n tl ih =>
    intro hp hne a ha
    cases tl with
    | nil => exact hp n (List.mem_cons_self _ _) a ha
    | cons m rest =>
      rw [joinComma_cons₂,
        List.getLast?_append_of_ne_nil n (by intro h; cases h)] at ha
      rw [List.getLast?_cons_cons] at ha
      have hj : joinComma (m :: rest) ≠ [] :=
        joinComma_ne_nil _ (by intro h; cases h)
          (fun x hx => hne x (List.mem_cons_of_mem _ hx))
      cases hjj : joinComma (m :: rest) with
      | nil => exact absurd hjj hj
      | cons z zs =>
        rw [hjj, List.getLast?_cons_cons] at ha
        rw [← hjj] at ha
        exact ih (fun x hx => hp x (List.mem_cons_of_mem _ hx))
          (fun x hx => hne x (List.mem_cons_of_mem _ hx)) a ha

lemma joinComma_chain' {R : Nat → Nat → Prop} :
    ∀ ns : List PyStr, (∀ n ∈ ns, List.Chain' R n) →
      (∀ n ∈ ns, ∀ a ∈ n.getLast?, R a 44) → R 44 32 →
      (∀ n ∈ ns, ∀ a ∈ n.head?, R 32 a) → (∀ n ∈ ns, n ≠ []) →
      List.Chain' R (joinComma ns) := by
  intro ns
  induction ns with
  | nil => intro _ _ _ _ _; exact List.chain'_nil
  | cons n tl ih =>
    intro hc hlast h4432 hhead hne
    cases tl with
    | nil => exact hc n (List.mem_cons_self _ _)
    | cons m rest =>
      rw [joinComma_cons₂]
      apply List.chain'_append.2
      refine ⟨hc n (List.mem_cons_self _ _), ?_, ?_⟩
      · rw [List.chain'_cons]
        refine ⟨h4432, ?_⟩
        rw [List.chain'_cons']
        refine ⟨?_, ?_⟩
        · intro y hy
          have hh := joinComma_head_prop (R 32) (m :: rest)
            (fun x hx => hhead x (List.mem_cons_of_mem _ hx))
            (fun x hx => hne x (List.mem_cons_of_mem _ hx))
          exact hh y hy
        · exact ih (fun x hx => hc x (List.mem_cons_of_mem _ hx))
            (fun x hx => hlast x (List.mem_cons_of_mem _ hx)) h4432
            (fun x hx => hhead x (List.mem_cons_of_mem _ hx))
            (fun x hx => hne x (List.mem_cons_of_mem _ hx))
      · intro x hx y hy
        simp at hy
        rw [← hy]
        exact hlast n (List.mem_cons_self _ _) x hx


-- ---------- Claim C4: stage identity lemmas ----------

lemma map_id_of (f : Nat → Nat) :
    ∀ l : PyStr, (∀ c ∈ l, f c = c) → l.map f = l := by
  intro l
  induction l with
  | nil => intro _; rfl
  | cons a r ih =>
    intro h
    rw [List.map_cons, h a (List.mem_cons_self _ _),
      ih (fun c hc => h c (List.mem_cons_of_mem _ hc))]

lemma normNoiseGo_id :
    ∀ l : PyStr, (∀ c ∈ l, isNoise c = false) → normNoiseGo false l = l := by
  intro l
  induction l with
  | nil => intro _; rfl
  | cons c r ih =>
    intro h
    unfold normNoiseGo
    rw [if_neg (by simp [h c (List.mem_cons_self _ _)])]
    rw [ih (fun x hx => h x (List.mem_cons_of_mem _ hx))]

lemma collapseGo_id : ∀ l : PyStr, List.Chain' noWW l → collapseGo [] l = l := by
  intro l
  induction l with
  | nil => intro _; rfl
  | cons c r ih =>
    intro h
    by_cases hc : isPyWs c = true
    · rw [show collapseGo [] (c :: r) = collapseGo [c] r from by simp [collapseGo, hc]]
      cases r with
      | nil => simp [collapseGo, wsFlush]
      | cons d r' =>
        have hd : isPyWs d = false := by
          have h1 := (List.chain'_cons.1 h).1
          by_cases hdw : isPyWs d = true
          · exact absurd ⟨hc, hdw⟩ h1
          · simpa using hdw
        rw [show collapseGo [c] (d :: r') = wsFlush [c] ++ (d :: collapseGo [] r') from
          by simp [collapseGo, hd]]
        have hr' : collapseGo [] r' = r' := by
          have h2 := ih h.tail
          rw [show collapseGo [] (d :: r') = wsFlush [] ++ (d :: collapseGo [] r') from
            by simp [collapseGo, hd]] at h2
          simp [wsFlush] at h2
          exact h2
        rw [hr']
        simp [wsFlush]
    · rw [show collapseGo [] (c :: r) = wsFlush [] ++ (c :: collapseGo [] r) from
        by simp [collapseGo, hc]]
      rw [ih h.tail]
      simp [wsFlush]

lemma insertSpace_id :
    ∀ l : PyStr,
      List.Chain' (fun a b => isListDelim a = true → isAlphaA b = false) l →
      insertSpaceAfterDelim l = l := by
  intro l
  induction l with
  | nil => intro _; rfl
  | cons c r ih =>
    intro h
    unfold insertSpaceAfterDelim
    cases r with
    | nil =>
      rw [if_neg (by simp)]
      rw [ih List.chain'_nil]
    | cons d r' =>
      by_cases hc : isListDelim c = true
      · have hd : isAlphaA d = false := (List.chain'_cons.1 h).1 hc
        rw [if_neg (by simp [hd])]
        rw [ih h.tail]
      · rw [if_neg (by simp [hc])]
        rw [ih h.tail]

lemma nextParenClose_false :
    ∀ l : PyStr, (∀ c ∈ l, c ≠ 40 ∧ c ≠ 41) → nextParenClose l = false := by
  intro l
  induction l with
  | nil => intro _; rfl
  | cons c r ih =>
    intro h
    unfold nextParenClose
    rw [if_neg (h c (List.mem_cons_self _ _)).1,
      if_neg (h c (List.mem_cons_self _ _)).2]
    exact ih fun x hx => h x (List.mem_cons_of_mem _ hx)

lemma splitTop_nocomma :
    ∀ l : PyStr, (∀ c ∈ l, c ≠ 44) → splitTop l = [l] := by
  intro l
  induction l with
  | nil => intro _; rfl
  | cons c r ih =>
    intro h
    unfold splitTop
    rw [if_neg (by simp [h c (List.mem_cons_self _ _)])]
    rw [ih (fun x hx => h x (List.mem_cons_of_mem _ hx))]

lemma splitTop_append_comma :
    ∀ (a r : PyStr),
      (∀ c ∈ a, c ≠ 44) → (∀ c ∈ r, c ≠ 40 ∧ c ≠ 41) →
      splitTop (a ++ 44 :: r) = a :: splitTop r := by
  intro a
  induction a with
  | nil =>
    intro r _ hp
    show splitTop (44 :: r) = [] :: splitTop r
    conv_lhs => unfold splitTop
    rw [if_pos (by simp [nextParenClose_false r hp])]
  | cons c a' ih =>
    intro r hna hp
    show splitTop (c :: (a' ++ 44 :: r)) = (c :: a') :: splitTop r
    conv_lhs => unfold splitTop
    rw [if_neg (by simp [hna c (List.mem_cons_self _ _)])]
    rw [ih r (fun x hx => hna x (List.mem_cons_of_mem _ hx)) hp]

lemma splitTop_joinComma_aux :
    ∀ (rest : List PyStr) (m : PyStr),
      (∀ n ∈ m :: rest, ∀ c ∈ n, goodChar c = true) →
      splitTop (32 :: joinComma (m :: rest)) =
        (m :: rest).map (fun x => 32 :: x) := by
  intro rest
  induction rest with
  | nil =>
    intro m hg
    rw [show joinComma [m] = m from rfl]
    rw [splitTop_nocomma (32 :: m) ?_]
    · rfl
    · intro c hc
      rcases List.mem_cons.1 hc with rfl | hc
      · omega
      · exact goodChar_ne_44 c (hg m (List.mem_cons_self _ _) c hc)
  | cons r1 rest' ih =>
    intro m hg
    have hjmem : ∀ c ∈ (32 :: joinComma (r1 :: rest')), c ≠ 40 ∧ c ≠ 41 := by
      intro c hc
      rcases List.mem_cons.1 hc with rfl | hc
      · omega
      · rcases joinComma_mem _ c hc with ⟨n2, hn2, hcn2⟩ | hc44 | hc32
        · exact goodChar_not_paren c
            (hg n2 (List.mem_cons_of_mem _ hn2) c hcn2)
        · omega
        · omega
    rw [joinComma_cons₂]
    rw [show (32 :: (m ++ (44 :: 32 :: joinComma (r1 :: rest')))) =
        ((32 :: m) ++ (44 :: (32 :: joinComma (r1 :: rest')))) from by simp]
    rw [splitTop_append_comma (32 :: m) (32 :: joinComma (r1 :: rest'))
      (by
        intro c hc
        rcases List.mem_cons.1 hc with rfl | hc
        · omega
        · exact goodChar_ne_44 c (hg m (List.mem_cons_self _ _) c hc)) hjmem]
    rw [ih r1 (fun n hn => hg n (List.mem_cons_of_mem _ hn))]
    rfl

lemma splitTop_joinComma (n : PyStr) (tl : List PyStr)
    (hg : ∀ x ∈ n :: tl, ∀ c ∈ x, goodChar c = true) :
    splitTop (joinComma (n :: tl)) = n :: tl.map (fun x => 32 :: x) := by
  cases tl with
  | nil =>
    rw [show joinComma [n] = n from rfl,
      splitTop_nocomma n
        (fun c hc => goodChar_ne_44 c (hg n (List.mem_cons_self _ _) c hc))]
    rfl
  | cons m rest =>
    rw [joinComma_cons₂]
    rw [splitTop_append_comma n (32 :: joinComma (m :: rest))
      (fun c hc => goodChar_ne_44 c (hg n (List.mem_cons_self _ _) c hc))
      (by
        intro c hc
        rcases List.mem_cons.1 hc with rfl | hc
        · omega
        · rcases joinComma_mem _ c hc with ⟨n2, hn2, hcn2⟩ | hc44 | hc32
          · exact goodChar_not_paren c
              (hg n2 (List.mem_cons_of_mem _ hn2) c hcn2)
          · omega
          · omega)]
    rw [splitTop_joinComma_aux rest m (fun x hx => hg x (List.mem_cons_of_mem _ hx))]


-- ---------- Claim C4: the fuzzy header cannot fire without "ingr" ----------

lemma headerAt_none (l : PyStr)
    (h : startsWithCI (pystr ("ingr")) l = false) : headerAt l = none := by
  cases l with
  | nil => rfl
  | cons c1 r1 =>
    cases r1 with
    | nil => rfl
    | cons c2 r2 =>
      cases r2 with
      | nil => rfl
      | cons c3 r3 =>
        cases r3 with
        | nil => rfl
        | cons c4 r4 =>
          have hs : startsWithCI (pystr ("ingr")) (c1 :: c2 :: c3 :: c4 :: r4) =
              (chEq c1 105 && (chEq c2 110 && (chEq c3 103 && chEq c4 114))) := by
            show (chEq c1 105 && (chEq c2 110 && (chEq c3 103 && (chEq c4 114 && true)))) = _
            rw [Bool.and_true]
          rw [hs] at h
          show (if (chEq c1 105 && chEq c2 110 && chEq c3 103 && chEq c4 114) = true
            then headerAfterIngr r4 else none) = none
          rw [if_neg ?_]
          intro hcon
          simp only [Bool.and_eq_true] at hcon
          rw [hcon.1.1.1, hcon.1.1.2, hcon.1.2, hcon.2] at h
          simp at h

lemma findHeader_none : ∀ l : PyStr, hasIngr l = false → findHeader l = none := by
  intro l
  induction l with
  | nil => intro _; rfl
  | cons c r ih =>
    intro h
    unfold hasIngr at h
    rw [Bool.or_eq_false_iff] at h
    unfold findHeader
    rw [headerAt_none _ h.1]
    exact ih h.2

lemma startsWithCI_append :
    ∀ (w u v : PyStr), w.length ≤ u.length →
      startsWithCI w (u ++ v) = startsWithCI w u := by
  intro w
  induction w with
  | nil => intro u v _; rfl
  | cons t ws ih =>
    intro u v hl
    cases u with
    | nil => simp at hl
    | cons c us =>
      show (chEq c t && startsWithCI ws (us ++ v)) = (chEq c t && startsWithCI ws us)
      rw [ih us v (by simpa using hl)]

lemma startsWithCI_ingr_sep :
    ∀ (u b : PyStr), u.length ≤ 3 →
      startsWithCI (pystr ("ingr")) (u ++ 44 :: 32 :: b) = false := by
  intro u b hl
  have hi : pystr ("ingr") = [105, 110, 103, 114] := by decide
  rw [hi]
  cases u with
  | nil =>
    show (chEq 44 105 && _) = false
    rw [show chEq 44 105 = false from by decide, Bool.false_and]
  | cons x u1 =>
    cases u1 with
    | nil =>
      show (chEq x 105 && (chEq 44 110 && _)) = false
      rw [show chEq 44 110 = false from by decide]
      simp
    | cons y u2 =>
      cases u2 with
      | nil =>
        show (chEq x 105 && (chEq y 110 && (chEq 44 103 && _))) = false
        rw [show chEq 44 103 = false from by decide]
        simp
      | cons z u3 =>
        cases u3 with
        | nil =>
          show (chEq x 105 && (chEq y 110 && (chEq z 103 && (chEq 44 114 && _)))) = false
          rw [show chEq 44 114 = false from by decide]
          simp
        | cons w u4 => simp at hl

lemma startsWithCI_ingr_32 (b : PyStr) :
    startsWithCI (pystr ("ingr")) (32 :: b) = false := by
  rw [show pystr ("ingr") = [105, 110, 103, 114] from by decide]
  show (chEq 32 105 && _) = false
  rw [show chEq 32 105 = false from by decide, Bool.false_and]

lemma hasIngr_append_sep :
    ∀ (a b : PyStr), hasIngr a = false → hasIngr b = false →
      hasIngr (a ++ 44 :: 32 :: b) = false := by
  intro a
  induction a with
  | nil =>
    intro b _ hb
    show hasIngr (44 :: 32 :: b) = false
    have h0 := startsWithCI_ingr_sep [] b (by simp)
    simp only [List.nil_append] at h0
    unfold hasIngr
    rw [h0, Bool.false_or]
    unfold hasIngr
    rw [startsWithCI_ingr_32 b, Bool.false_or]
    exact hb
  | cons c a' ih =>
    intro b ha hb
    have ha' : startsWithCI (pystr ("ingr")) (c :: a') = false ∧ hasIngr a' = false := by
      unfold hasIngr at ha
      rw [Bool.or_eq_false_iff] at ha
      exact ha
    show hasIngr (c :: (a' ++ 44 :: 32 :: b)) = false
    unfold hasIngr
    rw [ih b ha'.2 hb, Bool.or_false]
    by_cases h3 : 3 ≤ a'.length
    · have h4 : (pystr ("ingr")).length ≤ (c :: a').length := by
        rw [show (pystr ("ingr")).length = 4 from by decide]
        simp
        omega
      have := startsWithCI_append (pystr ("ingr")) (c :: a') (44 :: 32 :: b) h4
      simp only [List.cons_append] at this
      rw [this]
      exact ha'.1
    · have := startsWithCI_ingr_sep (c :: a') b (by simp; omega)
      simp only [List.cons_append] at this
      exact this

lemma hasIngr_joinComma :
    ∀ ns : List PyStr, (∀ n ∈ ns, hasIngr n = false) →
      hasIngr (joinComma ns) = false := by
  intro ns
  induction ns with
  | nil => intro _; rfl
  | cons n tl ih =>
    intro h
    cases tl with
    | nil => exact h n (List.mem_cons_self _ _)
    | cons m rest =>
      rw [joinComma_cons₂]
      exact hasIngr_append_sep n _ (h n (List.mem_cons_self _ _))
        (ih (fun x hx => h x (List.mem_cons_of_mem _ hx)))

lemma joinComma_countP :
    ∀ ns : List PyStr, (∀ n ∈ ns, ∀ c ∈ n, goodChar c = true) →
      ns ≠ [] → (joinComma ns).countP isListDelim = ns.length - 1 := by
  intro ns
  induction ns with
  | nil => intro _ h; exact absurd rfl h
  | cons n tl ih =>
    intro hg _
    have hn0 : n.countP isListDelim = 0 := List.countP_eq_zero.2 (by
      intro a ha hpa
      rw [goodChar_not_delim a (hg n (List.mem_cons_self _ _) a ha)] at hpa
      cases hpa)
    cases tl with
    | nil => simpa using hn0
    | cons m rest =>
      rw [joinComma_cons₂, List.countP_append, hn0]
      rw [List.countP_cons, List.countP_cons]
      rw [ih (fun x hx => hg x (List.mem_cons_of_mem _ hx)) (by intro h; cases h)]
      rw [show (if isListDelim 44 = true then 1 else 0) = 1 from by decide,
        show (if isListDelim 32 = true then 1 else 0) = 0 from by decide]
      simp only [List.length_cons]
      omega


-- ---------- Claim C4: cleaning a good name is the identity ----------

lemma goodName_chars (n : PyStr) (h : goodName n = true) :
    ∀ c ∈ n, goodChar c = true := (goodName_spec n h).2.1

lemma goodName_chain (n : PyStr) (h : goodName n = true) :
    List.Chain' noWW n := (goodName_spec n h).2.2.1

lemma goodName_head (n : PyStr) (h : goodName n = true) :
    ∀ a ∈ n.head?, edgeOkC a = true := (goodName_spec n h).2.2.2.1

lemma goodName_last (n : PyStr) (h : goodName n = true) :
    ∀ a ∈ n.getLast?, edgeOkC a = true := (goodName_spec n h).2.2.2.2.1

lemma goodName_ingr (n : PyStr) (h : goodName n = true) :
    hasIngr n = false := (goodName_spec n h).2.2.2.2.2.2.2.2.1

lemma goodName_ne_nil (n : PyStr) (h : goodName n = true) : n ≠ [] := by
  intro hnil
  have := (goodName_spec n h).1
  rw [hnil] at this
  simp at this

lemma stripEdge_goodName (n : PyStr) (hh : ∀ a ∈ n.head?, edgeOkC a = true)
    (hl : ∀ a ∈ n.getLast?, edgeOkC a = true) : stripEdge n = n :=
  pyStripWith_eq_self _ n (fun a ha => edgeOkC_not_edge a (hh a ha))
    (fun a ha => edgeOkC_not_edge a (hl a ha))

lemma stripEdge_cons32 (n : PyStr) (hh : ∀ a ∈ n.head?, edgeOkC a = true)
    (hl : ∀ a ∈ n.getLast?, edgeOkC a = true) : stripEdge (32 :: n) = n := by
  have h1 : (32 :: n).dropWhile isEdgeStrip = n := by
    rw [List.dropWhile_cons_of_pos (by decide)]
    exact dropWhile_eq_self_of_head _ n (fun a ha => edgeOkC_not_edge a (hh a ha))
  unfold stripEdge pyStripWith
  rw [h1]
  unfold dropTrailWhile
  rw [dropWhile_eq_self_of_head _ n.reverse (by
    intro a ha
    rw [List.head?_reverse] at ha
    exact edgeOkC_not_edge a (hl a ha))]
  exact List.reverse_reverse n

lemma cleanPart_goodName (n : PyStr) (h : goodName n = true) :
    cleanPart n = [n] := by
  obtain ⟨hlen, hall, hww, hhd, htl, hti, hdig, hboil, _, hand, hor⟩ := goodName_spec n h
  have hse : stripEdge n = n := stripEdge_goodName n hhd htl
  unfold cleanPart
  rw [hse, hti]
  rw [if_pos (by
    simp only [Bool.and_eq_true, decide_eq_true_eq, Bool.not_eq_true']
    exact ⟨⟨by omega, hdig⟩, hboil⟩)]
  rw [subSplitGo_trivial n none none (fun c hc => goodChar_ne_46 c (hall c hc)) hww]
  simp only [List.filterMap_cons, List.filterMap_nil]
  rw [hse, hti]
  rw [if_pos (by
    simp only [Bool.and_eq_true, decide_eq_true_eq, Bool.not_eq_true',
      decide_eq_false_iff_not]
    exact ⟨⟨by omega, hand⟩, hor⟩)]

lemma cleanPart_cons32 (n : PyStr) (h : goodName n = true) :
    cleanPart (32 :: n) = [n] := by
  obtain ⟨hlen, hall, hww, hhd, htl, hti, hdig, hboil, _, hand, hor⟩ := goodName_spec n h
  have hse32 : stripEdge (32 :: n) = n := stripEdge_cons32 n hhd htl
  have hse : stripEdge n = n := stripEdge_goodName n hhd htl
  unfold cleanPart
  rw [hse32, hti]
  rw [if_pos (by
    simp only [Bool.and_eq_true, decide_eq_true_eq, Bool.not_eq_true']
    exact ⟨⟨by omega, hdig⟩, hboil⟩)]
  rw [subSplitGo_trivial n none none (fun c hc => goodChar_ne_46 c (hall c hc)) hww]
  simp only [List.filterMap_cons, List.filterMap_nil]
  rw [hse, hti]
  rw [if_pos (by
    simp only [Bool.and_eq_true, decide_eq_true_eq, Bool.not_eq_true',
      decide_eq_false_iff_not]
    exact ⟨⟨by omega, hand⟩, hor⟩)]

lemma flatMap_cleanParts_aux :
    ∀ tl : List PyStr, (∀ x ∈ tl, goodName x = true) →
      (tl.map (fun x => 32 :: x)).flatMap cleanPart = tl := by
  intro tl
  induction tl with
  | nil => intro _; rfl
  | cons m rest ih =>
    intro hg
    rw [List.map_cons, List.flatMap_cons,
      cleanPart_cons32 m (hg m (List.mem_cons_self _ _)),
      ih (fun x hx => hg x (List.mem_cons_of_mem _ hx))]
    rfl

lemma dedupGo_id :
    ∀ (l seen : List PyStr),
      (l.map pyLower).Nodup → (∀ n ∈ l, pyLower n ∉ seen) →
      dedupGo seen l = l := by
  intro l
  induction l with
  | nil => intro seen _ _; rfl
  | cons a r ih =>
    intro seen hnd hns
    unfold dedupGo
    rw [if_neg (hns a (List.mem_cons_self _ _))]
    rw [ih (pyLower a :: seen) (List.nodup_cons.1 (by simpa using hnd)).2 ?_]
    intro n hn
    rw [List.mem_cons]
    rintro (heq | hseen)
    · exact (List.nodup_cons.1 (by simpa using hnd)).1
        (List.mem_map.2 ⟨n, hn, heq⟩)
    · exact hns n (List.mem_cons_of_mem _ hn) hseen

-- ---------- Claim C4: re-extraction of a good join is exact ----------

/-- Re-extracting the comma-join of at least three good names returns
exactly the same list. -/
lemma rejoin_exact (ns : List PyStr) (h3 : 3 ≤ ns.length)
    (hg : ∀ n ∈ ns, goodName n = true) (hnd : (ns.map pyLower).Nodup)
    (hwc : wordCount (joinComma ns) < 80) :
    extract_ingredients_from_text (joinComma ns) = ns := by
  have hgc : ∀ n ∈ ns, ∀ c ∈ n, goodChar c = true :=
    fun n hn => goodName_chars n (hg n hn)
  have hne : ∀ n ∈ ns, n ≠ [] := fun n hn => goodName_ne_nil n (hg n hn)
  have hns0 : ns ≠ [] := by
    intro h0
    rw [h0] at h3
    simp at h3
  have hmem : ∀ c ∈ joinComma ns, goodChar c = true ∨ c = 44 ∨ c = 32 := by
    intro c hc
    rcases joinComma_mem ns c hc with ⟨n, hn, hcn⟩ | h | h
    · exact Or.inl (hgc n hn c hcn)
    · exact Or.inr (Or.inl h)
    · exact Or.inr (Or.inr h)
  have hjne : joinComma ns ≠ [] := joinComma_ne_nil ns hns0 hne
  have hchWW : List.Chain' noWW (joinComma ns) := by
    apply joinComma_chain' ns
    · exact fun n hn => goodName_chain n (hg n hn)
    · intro n hn a ha hcon
      exact absurd hcon.2 (by decide)
    · intro hcon
      exact absurd hcon.1 (by decide)
    · intro n hn a ha hcon
      have hws := edgeOkC_not_ws a (goodName_head n (hg n hn) a ha)
      rw [hws] at hcon
      cases hcon.2
    · exact hne
  have hchDA :
      List.Chain' (fun a b => isListDelim a = true → isAlphaA b = false)
        (joinComma ns) := by
    apply joinComma_chain' ns
    · intro n hn
      apply chain'_of_mem_left
      intro a ha b hd
      rw [goodChar_not_delim a (hgc n hn a ha)] at hd
      cases hd
    · intro n hn a ha _
      decide
    · intro _
      decide
    · intro n hn a ha hd
      cases hd
    · exact hne
  have hstrip : pyStrip (joinComma ns) = joinComma ns := by
    apply pyStripWith_eq_self
    · apply joinComma_head_prop (fun a => isPyWs a = false) ns ?_ hne
      intro n hn a ha
      exact edgeOkC_not_ws a (goodName_head n (hg n hn) a ha)
    · apply joinComma_last_prop (fun a => isPyWs a = false) ns ?_ hne
      intro n hn a ha
      exact edgeOkC_not_ws a (goodName_last n (hg n hn) a ha)
  have hnn : normNoise (joinComma ns) = joinComma ns := normNoiseGo_id _ (by
    intro c hc
    rcases hmem c hc with h | h | h
    · exact goodChar_not_noise c h
    · rw [h]; decide
    · rw [h]; decide)
  have hcoll : collapseWs (joinComma ns) = joinComma ns := collapseGo_id _ hchWW
  have hnt : normalizedText (joinComma ns) = joinComma ns := by
    unfold normalizedText
    rw [hstrip, hnn, hcoll, hstrip]
  have hfind : findHeader (joinComma ns) = none :=
    findHeader_none _ (hasIngr_joinComma ns (fun n hn => goodName_ingr n (hg n hn)))
  have hcnt : (joinComma ns).countP isListDelim = ns.length - 1 :=
    joinComma_countP ns hgc hns0
  have hsec : sectionOfText (joinComma ns) = some (joinComma ns) := by
    apply sectionOfText_headerless
    · exact hfind
    · rw [hcnt]; omega
    · exact hwc
  have hfold : foldDelims (joinComma ns) = joinComma ns := by
    apply map_id_of
    intro c hc
    rcases hmem c hc with h | h | h
    · have hnd2 := goodChar_not_delim c h
      unfold isListDelim at hnd2
      simp only [decide_eq_false_iff_not] at hnd2
      rw [if_neg (by omega)]
    · rw [h]; simp
    · rw [h]; rw [if_neg (by omega)]
  have hscrub : scrubC (joinComma ns) = joinComma ns := by
    apply map_id_of
    intro c hc
    rcases hmem c hc with h | h | h
    · rw [if_pos (goodChar_keep4 c h)]
    · rw [h]; decide
    · rw [h]; decide
  have hs4 : stage4 (joinComma ns) = joinComma ns := by
    unfold stage4
    rw [insertSpace_id _ hchDA, hfold, hscrub, hcoll, hstrip]
  obtain ⟨n1, tl, rfl⟩ : ∃ n1 tl, ns = n1 :: tl := by
    cases ns with
    | nil => exact absurd rfl hns0
    | cons a b => exact ⟨a, b, rfl⟩
  have hct : cleanedTokens (joinComma (n1 :: tl)) = n1 :: tl := by
    unfold cleanedTokens sectionOf
    rw [hnt, hsec]
    show (splitTop (stage4 (joinComma (n1 :: tl)))).flatMap cleanPart = n1 :: tl
    rw [hs4, splitTop_joinComma n1 tl hgc]
    rw [List.flatMap_cons, cleanPart_goodName n1 (hg n1 (List.mem_cons_self _ _)),
      flatMap_cleanParts_aux tl (fun x hx => hg x (List.mem_cons_of_mem _ hx))]
    rfl
  unfold extract_ingredients_from_text
  rw [if_neg (by
    rw [hstrip]
    simp only [List.isEmpty_iff]
    exact hjne)]
  rw [hct]
  exact dedupGo_id _ [] hnd (by simp)

/-- Claim C4 (amended): idempotence holds conditionally.  When the
original extraction yields at least three names, each made of letters,
digits, single interior spaces and hyphens with letter/digit endpoints,
at least two characters long, fixed under title-casing, not purely
numeric, not and/or, not starting with a token-filter marker word, and
free of the header seed "ingr", and the comma-join has fewer than 80
words, then re-extracting the join returns exactly the original name
list (hence the same set).  In general — for example when extraction
yields one or two names — re-extraction can return the empty list. -/
theorem extract_idem_amended (raw : PyStr)
    (h3 : 3 ≤ (extract_ingredients_from_text raw).length)
    (hg : ∀ n ∈ extract_ingredients_from_text raw, goodName n = true)
    (hwc : wordCount (joinComma (extract_ingredients_from_text raw)) < 80) :
    extract_ingredients_from_text
        (joinComma (extract_ingredients_from_text raw)) =
      extract_ingredients_from_text raw := by
  apply rejoin_exact _ h3 hg ?_ hwc
  unfold extract_ingredients_from_text
  split_ifs
  · simp
  · exact (dedupGo_nodup _ []).1

theorem extract_idem_amended_w :
    (3 ≤ (extract_ingredients_from_text
        (pystr ("Ingredients: Water, Dried Tomato, Sea Salt"))).length ∧
      (∀ n ∈ extract_ingredients_from_text
        (pystr ("Ingredients: Water, Dried Tomato, Sea Salt")), goodName n = true) ∧
      wordCount (joinComma (extract_ingredients_from_text
        (pystr ("Ingredients: Water, Dried Tomato, Sea Salt")))) < 80) ∧
    extract_ingredients_from_text
        (joinComma (extract_ingredients_from_text
          (pystr ("Ingredients: Water, Dried Tomato, Sea Salt")))) =
      extract_ingredients_from_text
        (pystr ("Ingredients: Water, Dried Tomato, Sea Salt")) :=
  ⟨⟨by decide, by decide, by decide⟩,
    extract_idem_amended _ (by decide) (by decide) (by decide)⟩


-- ---------- generation orchestrator lemmas ----------

lemma bgp_blurb (hist : List ChatMsg) (name lang : PyStr) (kr : Option ℚ) :
    _build_generation_prompt hist name (pystr ("blurb")) lang kr =
      Except.ok (blurbTemplate name lang) := by
  unfold _build_generation_prompt
  rw [if_pos rfl]

lemma bgp_overview (hist : List ChatMsg) (name lang : PyStr) (kr : Option ℚ) :
    _build_generation_prompt hist name (pystr ("overview")) lang kr =
      Except.ok (ratingHint name kr ++ overviewTemplate name lang) := by
  unfold _build_generation_prompt
  rw [if_neg (by decide), if_pos rfl]

lemma bgp_schema (hist : List ChatMsg) (name lang : PyStr) (kr : Option ℚ) :
    _build_generation_prompt hist name (pystr ("schema")) lang kr =
      Except.ok (ratingHint name kr ++ schemaTemplate name) := by
  unfold _build_generation_prompt
  rw [if_neg (by decide), if_neg (by decide), if_pos rfl]

lemma generate_blurb (st : Store) (hist : List ChatMsg) (name lang : PyStr)
    (o : GenOracle) (t : PyStr) (hm : o.main = Except.ok t) :
    generate st hist name (pystr ("blurb")) lang o =
      Except.ok ⟨st, hist, t, blurbTemplate name lang⟩ := by
  have e1 : pystr ("blurb") ≠ pystr ("schema") := by decide
  have e2 : pystr ("blurb") ≠ pystr ("overview") := by decide
  have e3 : pystr ("blurb") ≠ pystr ("chat") := by decide
  cases hk : storeLookup st (pyStrip (pyLower name)) with
  | none => simp [generate, bgp_blurb, hm, hk, e1, e2, e3]
  | some v => simp [generate, bgp_blurb, hm, hk, e1, e2, e3]

lemma generate_err_blurb (st : Store) (hist : List ChatMsg) (name lang : PyStr)
    (o : GenOracle) (e : PyStr) (hm : o.main = Except.error e) :
    generate st hist name (pystr ("blurb")) lang o = Except.error e := by
  simp [generate, bgp_blurb, hm]

lemma generate_err_schema (st : Store) (hist : List ChatMsg) (name lang : PyStr)
    (o : GenOracle) (e : PyStr) (hm : o.main = Except.error e) :
    generate st hist name (pystr ("schema")) lang o = Except.error e := by
  simp [generate, bgp_schema, hm]

lemma generate_schema (st : Store) (hist : List ChatMsg) (name lang : PyStr)
    (o : GenOracle) (t : PyStr) (hm : o.main = Except.ok t) :
    generate st hist name (pystr ("schema")) lang o =
      Except.ok ⟨(schemaAdmit st (pyStrip (pyLower name)) o.parsed
          ((storeLookup st (pyStrip (pyLower name))).map
            (fun v => v.health_safety_rating))).1, hist, t,
        ratingHint name ((storeLookup st (pyStrip (pyLower name))).map
          (fun v => v.health_safety_rating)) ++ schemaTemplate name⟩ := by
  have e1 : pystr ("schema") ≠ pystr ("overview") := by decide
  have e2 : pystr ("schema") ≠ pystr ("chat") := by decide
  cases hp : o.parsed with
  | none =>
    simp [generate, bgp_schema, schemaAdmit, hm, hp, e1, e2]
    cases storeLookup st (pyStrip (pyLower name)) <;> rfl
  | some rec =>
    by_cases hr : 0 ≤ rec.health_safety_rating ∧ rec.health_safety_rating ≤ 1
    · simp [generate, bgp_schema, schemaAdmit, hm, hp, hr, e1, e2]
    · simp [generate, bgp_schema, schemaAdmit, hm, hp, hr, e1, e2]
      cases storeLookup st (pyStrip (pyLower name)) <;> rfl

lemma generate_overview_none (st : Store) (hist : List ChatMsg)
    (name lang : PyStr) (o : GenOracle) (t : PyStr)
    (hm : o.main = Except.ok t)
    (hk : storeLookup st (pyStrip (pyLower name)) = none) :
    generate st hist name (pystr ("overview")) lang o =
      Except.ok ⟨st, hist, t, ratingHint name none ++ overviewTemplate name lang⟩ := by
  have e1 : pystr ("overview") ≠ pystr ("schema") := by decide
  have e2 : pystr ("overview") ≠ pystr ("chat") := by decide
  simp [generate, bgp_overview, hm, hk, e1, e2]

lemma generate_overview_some (st : Store) (hist : List ChatMsg)
    (name lang : PyStr) (o : GenOracle) (t : PyStr) (v : RatingRecord)
    (hm : o.main = Except.ok t)
    (hk : storeLookup st (pyStrip (pyLower name)) = some v) :
    generate st hist name (pystr ("overview")) lang o =
      Except.ok ⟨st, hist,
        pyStrip t ++ pystr ("\n\n[Health Rating: ") ++
          fmt2 v.health_safety_rating ++ pystr ("]"),
        ratingHint name (some v.health_safety_rating) ++
          overviewTemplate name lang⟩ := by
  have e1 : pystr ("overview") ≠ pystr ("schema") := by decide
  have e2 : pystr ("overview") ≠ pystr ("chat") := by decide
  simp [generate, bgp_overview, hm, hk, e1, e2]

/-- The store returned by a successful generate call: written only by a
structured-mode call whose parsed rating lies in [0,1]. -/
lemma generate_store_eq (st : Store) (hist : List ChatMsg)
    (name mode lang : PyStr) (o : GenOracle) (res : GenResult)
    (hok : generate st hist name mode lang o = Except.ok res) :
    res.store = (if mode = pystr ("schema") then
        (schemaAdmit st (pyStrip (pyLower name)) o.parsed
          ((storeLookup st (pyStrip (pyLower name))).map
            (fun v => v.health_safety_rating))).1
      else st) := by
  cases hb : _build_generation_prompt hist name mode lang
      ((storeLookup st (pyStrip (pyLower name))).map
        (fun v => v.health_safety_rating)) with
  | error e =>
    simp only [generate, hb] at hok
    exact Except.noConfusion hok
  | ok prompt =>
    cases hm : o.main with
    | error e =>
      simp only [generate, hb, hm] at hok
      exact Except.noConfusion hok
    | ok t =>
      simp only [generate, hb, hm] at hok
      by_cases hc : mode = pystr ("chat")
      · rw [if_pos hc] at hok
        cases hcm : o.chatMain with
        | error e => rw [hcm] at hok; exact Except.noConfusion hok
        | ok ct =>
          rw [hcm] at hok
          cases hsg : o.sugg with
          | error e => rw [hsg] at hok; exact Except.noConfusion hok
          | ok sg =>
            rw [hsg] at hok
            simp only [Except.ok.injEq] at hok
            rw [← hok]
            split_ifs with hms <;> rfl
      · rw [if_neg hc] at hok
        simp only [Except.ok.injEq] at hok
        rw [← hok]
        split_ifs with hms <;> rfl

lemma storeInv_insert (st : Store) (k : PyStr) (v : RatingRecord)
    (h : storeInv st)
    (hv : 0 ≤ v.health_safety_rating ∧ v.health_safety_rating ≤ 1) :
    storeInv (storeInsert st k v) := by
  unfold storeInsert
  split_ifs with hf
  · intro e he
    rcases List.mem_map.1 he with ⟨x, hx, hxe⟩
    by_cases hxk : x.1 = k
    · rw [if_pos hxk] at hxe
      rw [← hxe]
      exact hv
    · rw [if_neg hxk] at hxe
      rw [← hxe]
      exact h x hx
  · intro e he
    rcases List.mem_append.1 he with he | he
    · exact h e he
    · simp at he
      rw [he]
      exact hv

/-- Every successful generate call preserves the rating-range invariant
of the store. -/
lemma generate_storeInv (st : Store) (hist : List ChatMsg)
    (name mode lang : PyStr) (o : GenOracle) (res : GenResult)
    (hinv : storeInv st)
    (hok : generate st hist name mode lang o = Except.ok res) :
    storeInv res.store := by
  rw [generate_store_eq st hist name mode lang o res hok]
  split_ifs with hm
  · unfold schemaAdmit
    cases hp : o.parsed with
    | none => exact hinv
    | some rec =>
      dsimp only
      by_cases hr : 0 ≤ rec.health_safety_rating ∧ rec.health_safety_rating ≤ 1
      · rw [if_pos hr]
        exact storeInv_insert st _ rec hinv hr
      · rw [if_neg hr]
        exact hinv
  · exact hinv

lemma storeLookup_insert (st : Store) (k : PyStr) (v : RatingRecord) :
    storeLookup (storeInsert st k v) k = some v := by
  unfold storeLookup storeInsert
  by_cases h : (st.find? (fun e => decide (e.1 = k))).isSome
  · rw [if_pos h]
    induction st with
    | nil => simp at h
    | cons e es ih =>
      by_cases hek : e.1 = k
      · rw [List.map_cons, if_pos hek]
        rw [List.find?_cons_of_pos _ (by simp)]
        rfl
      · rw [List.map_cons, if_neg hek]
        rw [List.find?_cons_of_neg _ (by simp [hek])]
        apply ih
        rw [List.find?_cons_of_neg _ (by simp [hek])] at h
        exact h
  · rw [if_neg h]
    induction st with
    | nil =>
      rw [List.nil_append, List.find?_cons_of_pos _ (by simp)]
      rfl
    | cons e es ih =>
      have hek : ¬(e.1 = k) := by
        intro hcon
        apply h
        rw [List.find?_cons_of_pos _ (by simp [hcon])]
        rfl
      rw [List.cons_append, List.find?_cons_of_neg _ (by simp [hek])]
      apply ih
      rw [List.find?_cons_of_neg _ (by simp [hek])] at h
      exact h


set_option maxRecDepth 200000

lemma schemaAdmit_good (st : Store) (key : PyStr) (rec : RatingRecord)
    (known : Option ℚ)
    (hr : 0 ≤ rec.health_safety_rating ∧ rec.health_safety_rating ≤ 1) :
    schemaAdmit st key (some rec) known =
      (storeInsert st key rec, some rec.health_safety_rating) := by
  unfold schemaAdmit
  dsimp only
  rw [if_pos hr]

lemma schemaAdmit_bad (st : Store) (key : PyStr) (rec : RatingRecord)
    (known : Option ℚ)
    (hr : ¬(0 ≤ rec.health_safety_rating ∧ rec.health_safety_rating ≤ 1)) :
    schemaAdmit st key (some rec) known = (st, known) := by
  unfold schemaAdmit
  dsimp only
  rw [if_neg hr]

lemma generate_err_overview (st : Store) (hist : List ChatMsg)
    (name lang : PyStr) (o : GenOracle) (e : PyStr)
    (hm : o.main = Except.error e) :
    generate st hist name (pystr ("overview")) lang o = Except.error e := by
  simp [generate, bgp_overview, hm]

-- ---------- Claim C10 ----------

/-- Claim C10: for every mode string outside the four supported modes,
generate raises ValueError from the prompt builder with the message
"Unknown mode '<mode>'", before invoking the external generator: the
result is an error, independent of the oracle, rather than a degraded
result object. -/
theorem unknown_mode_raises (st : Store) (hist : List ChatMsg)
    (name mode lang : PyStr) (o : GenOracle)
    (h1 : mode ≠ pystr ("blurb")) (h2 : mode ≠ pystr ("overview"))
    (h3 : mode ≠ pystr ("schema")) (h4 : mode ≠ pystr ("chat")) :
    generate st hist name mode lang o =
      Except.error (pystr ("Unknown mode \x27") ++ mode ++ pystr ("\x27")) ∧
    ∀ o2 : GenOracle,
      generate st hist name mode lang o = generate st hist name mode lang o2 := by
  have hb : ∀ kr : Option ℚ, _build_generation_prompt hist name mode lang kr =
      Except.error (pystr ("Unknown mode \x27") ++ mode ++ pystr ("\x27")) := by
    intro kr
    unfold _build_generation_prompt
    rw [if_neg h1, if_neg h2, if_neg h3, if_neg h4]
  constructor
  · simp [generate, hb]
  · intro o2
    simp [generate, hb]

theorem unknown_mode_raises_w :
    generate [] [] (pystr ("Salt")) (pystr ("banana")) (pystr ("en")) demoOracleSchema =
      Except.error (pystr ("Unknown mode \x27") ++ pystr ("banana") ++ pystr ("\x27")) :=
  (unknown_mode_raises [] [] (pystr ("Salt")) (pystr ("banana")) (pystr ("en"))
    demoOracleSchema (by decide) (by decide) (by decide) (by decide)).1

-- ---------- Claim C2 ----------

/-- Claim C2: a structured-mode response whose parsed rating lies outside
[0,1] is never admitted: the store is unchanged and a later lookup for
that key still reports no known rating when none was known; and every
successful generate call preserves the invariant that every stored
record's rating lies in [0,1]. -/
theorem rating_range_admission (st : Store) (hist : List ChatMsg)
    (name lang : PyStr) (o : GenOracle) (rec : RatingRecord) (res : GenResult)
    (hp : o.parsed = some rec)
    (hr : ¬(0 ≤ rec.health_safety_rating ∧ rec.health_safety_rating ≤ 1))
    (hok : generate st hist name (pystr ("schema")) lang o = Except.ok res) :
    res.store = st ∧
      (storeLookup st (pyStrip (pyLower name)) = none →
        storeLookup res.store (pyStrip (pyLower name)) = none) ∧
      ∀ (st2 : Store) (hist2 : List ChatMsg) (name2 mode2 lang2 : PyStr)
        (o2 : GenOracle) (res2 : GenResult), storeInv st2 →
        generate st2 hist2 name2 mode2 lang2 o2 = Except.ok res2 →
        storeInv res2.store := by
  have hst : res.store = st := by
    rw [generate_store_eq st hist name (pystr ("schema")) lang o res hok,
      if_pos rfl, hp, schemaAdmit_bad st _ rec _ hr]
  exact ⟨hst, fun h => by rw [hst]; exact h,
    fun st2 hist2 name2 mode2 lang2 o2 res2 hinv hok2 =>
      generate_storeInv st2 hist2 name2 mode2 lang2 o2 res2 hinv hok2⟩

theorem rating_range_admission_w :
    (badOracle.parsed = some (⟨mkRat 3 2, []⟩ : RatingRecord) ∧
      ¬(0 ≤ (⟨mkRat 3 2, []⟩ : RatingRecord).health_safety_rating ∧
        (⟨mkRat 3 2, []⟩ : RatingRecord).health_safety_rating ≤ 1) ∧
      generate [] [] (pystr ("Lead")) (pystr ("schema")) (pystr ("en")) badOracle =
        Except.ok badRes) ∧
    badRes.store = [] ∧
    (storeLookup [] (pyStrip (pyLower (pystr ("Lead")))) = none →
      storeLookup badRes.store (pyStrip (pyLower (pystr ("Lead")))) = none) := by
  have h := rating_range_admission [] [] (pystr ("Lead")) (pystr ("en")) badOracle
    ⟨mkRat 3 2, []⟩ badRes rfl (by decide) (by decide)
  exact ⟨⟨rfl, by decide, by decide⟩, h.1, h.2.1⟩

-- ---------- Claim C7 ----------

/-- Claim C7 counterexample: an overview-mode call with a known rating
leaves the store untouched but appends the rating annotation, so the raw
response text is NOT returned as-is in every non-writing outcome, as the
claim asserts. -/
theorem store_frame_cx :
    generate saltStore [] (pystr ("Salt")) (pystr ("overview")) (pystr ("en"))
        (demoOracleText "Sodium chloride info.") = Except.ok c7res ∧
      c7res.store = saltStore ∧
      c7res.text ≠ pystr ("Sodium chloride info.") :=
  ⟨by decide, by decide, by decide⟩

/-- Claim C7 (amended): the store is written only by a structured-mode
call whose response parses with a rating in [0,1]; every other
successful call leaves the store unchanged.  The raw response text is
returned as-is in blurb mode, in every schema-mode outcome, and in
overview mode when no rating is known; overview mode with a known rating
appends the rating annotation, and chat mode substitutes the chat
output. -/
theorem store_write_discipline (st : Store) (hist : List ChatMsg)
    (name mode lang : PyStr) (o : GenOracle) (res : GenResult)
    (hok : generate st hist name mode lang o = Except.ok res) :
    (¬(mode = pystr ("schema") ∧ ∃ rec : RatingRecord, o.parsed = some rec ∧
        0 ≤ rec.health_safety_rating ∧ rec.health_safety_rating ≤ 1) →
      res.store = st) ∧
    (∀ rec : RatingRecord, mode = pystr ("schema") → o.parsed = some rec →
      0 ≤ rec.health_safety_rating → rec.health_safety_rating ≤ 1 →
      res.store = storeInsert st (pyStrip (pyLower name)) rec) ∧
    ∀ t : PyStr, o.main = Except.ok t →
      ((mode = pystr ("blurb") ∨ mode = pystr ("schema")) → res.text = t) ∧
      (mode = pystr ("overview") →
        storeLookup st (pyStrip (pyLower name)) = none → res.text = t) := by
  refine ⟨?_, ?_, ?_⟩
  · intro hnot
    rw [generate_store_eq st hist name mode lang o res hok]
    by_cases hms : mode = pystr ("schema")
    · rw [if_pos hms]
      cases hp : o.parsed with
      | none => rfl
      | some rec =>
        by_cases hrr : 0 ≤ rec.health_safety_rating ∧ rec.health_safety_rating ≤ 1
        · exact absurd ⟨hms, rec, hp, hrr.1, hrr.2⟩ hnot
        · rw [schemaAdmit_bad st _ rec _ hrr]
    · rw [if_neg hms]
  · intro rec hms hp hx1 hx2
    rw [generate_store_eq st hist name mode lang o res hok, if_pos hms, hp,
      schemaAdmit_good st _ rec _ ⟨hx1, hx2⟩]
  · intro t hm
    constructor
    · rintro (hmode | hmode)
      · subst hmode
        rw [generate_blurb st hist name lang o t hm] at hok
        injection hok with h
        rw [← h]
      · subst hmode
        rw [generate_schema st hist name lang o t hm] at hok
        injection hok with h
        rw [← h]
    · intro hmode hk
      subst hmode
      rw [generate_overview_none st hist name lang o t hm hk] at hok
      injection hok with h
      rw [← h]

theorem store_write_discipline_w :
    generate [] [] (pystr ("Salt")) (pystr ("blurb")) (pystr ("en"))
        (demoOracleText "A salty blurb.") = Except.ok demoBlurbRes ∧
      demoBlurbRes.store = [] ∧
      demoBlurbRes.text = pystr ("A salty blurb.") := by
  have hok : generate [] [] (pystr ("Salt")) (pystr ("blurb")) (pystr ("en"))
      (demoOracleText "A salty blurb.") = Except.ok demoBlurbRes := by decide
  have h := store_write_discipline [] [] (pystr ("Salt")) (pystr ("blurb"))
    (pystr ("en")) (demoOracleText "A salty blurb.") demoBlurbRes hok
  refine ⟨hok, ?_, ?_⟩
  · exact h.1 (by
      rintro ⟨hcon, _⟩
      exact absurd hcon (by decide))
  · exact (h.2.2 (pystr ("A salty blurb.")) rfl).1 (Or.inl rfl)

-- ---------- Claim C1 ----------

/-- Claim C1: after a structured-mode call for a name admits a rating r
in [0,1], a subsequent overview (long) call for any name with the same
lowered stripped key returns the response text with the appended rating
annotation embedding r formatted to two decimals, and the prompt of any
subsequent overview- or schema-mode call for that key contains the
hard-constraint sentence and the two-decimal rating. -/
theorem rating_consistency (st : Store) (hist : List ChatMsg)
    (name1 lang1 : PyStr) (o1 : GenOracle) (rec : RatingRecord) (res1 : GenResult)
    (hp : o1.parsed = some rec)
    (hr : 0 ≤ rec.health_safety_rating ∧ rec.health_safety_rating ≤ 1)
    (hok1 : generate st hist name1 (pystr ("schema")) lang1 o1 = Except.ok res1) :
    (∀ (hist2 : List ChatMsg) (name2 lang2 t2 : PyStr) (o2 : GenOracle)
      (res2 : GenResult),
      pyStrip (pyLower name2) = pyStrip (pyLower name1) →
      o2.main = Except.ok t2 →
      generate res1.store hist2 name2 (pystr ("overview")) lang2 o2 =
        Except.ok res2 →
      res2.text = pyStrip t2 ++ pystr ("\n\n[Health Rating: ") ++
          fmt2 rec.health_safety_rating ++ pystr ("]") ∧
        containsSeg (fmt2 rec.health_safety_rating) res2.text) ∧
    ∀ (hist3 : List ChatMsg) (name3 mode3 lang3 : PyStr) (o3 : GenOracle)
      (res3 : GenResult),
      pyStrip (pyLower name3) = pyStrip (pyLower name1) →
      mode3 = pystr ("overview") ∨ mode3 = pystr ("schema") →
      generate res1.store hist3 name3 mode3 lang3 o3 = Except.ok res3 →
      containsSeg (ratingHintText name3 rec.health_safety_rating) res3.promptUsed ∧
        containsSeg (fmt2 rec.health_safety_rating) res3.promptUsed := by
  have hstore : res1.store = storeInsert st (pyStrip (pyLower name1)) rec := by
    rw [generate_store_eq st hist name1 (pystr ("schema")) lang1 o1 res1 hok1,
      if_pos rfl, hp, schemaAdmit_good st _ rec _ hr]
  have hlook : ∀ nm : PyStr, pyStrip (pyLower nm) = pyStrip (pyLower name1) →
      storeLookup res1.store (pyStrip (pyLower nm)) = some rec := by
    intro nm hk
    rw [hk, hstore]
    exact storeLookup_insert st _ rec
  constructor
  · intro hist2 name2 lang2 t2 o2 res2 hkey hm2 hok2
    rw [generate_overview_some res1.store hist2 name2 lang2 o2 t2 rec hm2
      (hlook name2 hkey)] at hok2
    injection hok2 with h
    rw [← h]
    refine ⟨rfl, ?_⟩
    exact ⟨pyStrip t2 ++ pystr ("\n\n[Health Rating: "), pystr ("]"), by
      simp [List.append_assoc]⟩
  · intro hist3 name3 mode3 lang3 o3 res3 hkey hmode hok3
    cases hm3 : o3.main with
    | error e =>
      rcases hmode with hmode | hmode
      · subst hmode
        rw [generate_err_overview res1.store hist3 name3 lang3 o3 e hm3] at hok3
        exact Except.noConfusion hok3
      · subst hmode
        rw [generate_err_schema res1.store hist3 name3 lang3 o3 e hm3] at hok3
        exact Except.noConfusion hok3
    | ok t3 =>
      rcases hmode with hmode | hmode
      · subst hmode
        rw [generate_overview_some res1.store hist3 name3 lang3 o3 t3 rec hm3
          (hlook name3 hkey)] at hok3
        injection hok3 with h
        rw [← h]
        constructor
        · exact ⟨[], overviewTemplate name3 lang3, by simp [ratingHint]⟩
        · exact ⟨pystr ("The ingredient \x27") ++ name3 ++
            pystr ("\x27 already has an established health safety rating of "),
            pystr (" on a scale of 0–1. You must use this exact value consistently.\n\n") ++
              overviewTemplate name3 lang3, by
            simp [ratingHint, ratingHintText, List.append_assoc]⟩
      · subst hmode
        rw [generate_schema res1.store hist3 name3 lang3 o3 t3 hm3] at hok3
        injection hok3 with h
        rw [← h]
        dsimp only
        rw [hlook name3 hkey]
        simp only [Option.map_some']
        constructor
        · exact ⟨[], schemaTemplate name3, by simp [ratingHint]⟩
        · exact ⟨pystr ("The ingredient \x27") ++ name3 ++
            pystr ("\x27 already has an established health safety rating of "),
            pystr (" on a scale of 0–1. You must use this exact value consistently.\n\n") ++
              schemaTemplate name3, by
            simp [ratingHint, ratingHintText, List.append_assoc]⟩

theorem rating_consistency_w :
    (demoOracleSchema.parsed = some demoRec ∧
      (0 ≤ demoRec.health_safety_rating ∧ demoRec.health_safety_rating ≤ 1) ∧
      generate [] [] (pystr ("Salt")) (pystr ("schema")) (pystr ("en"))
        demoOracleSchema = Except.ok demoRes1) ∧
    demoRes2.text = pyStrip (pystr ("Salt is a mineral.")) ++
      pystr ("\n\n[Health Rating: ") ++ fmt2 demoRec.health_safety_rating ++
      pystr ("]") ∧
    containsSeg (fmt2 demoRec.health_safety_rating) demoRes3.promptUsed := by
  have hok1 : generate [] [] (pystr ("Salt")) (pystr ("schema")) (pystr ("en"))
      demoOracleSchema = Except.ok demoRes1 := by decide
  have h := rating_consistency [] [] (pystr ("Salt")) (pystr ("en"))
    demoOracleSchema demoRec demoRes1 rfl (by decide) hok1
  refine ⟨⟨rfl, by decide, hok1⟩, ?_, ?_⟩
  · exact (h.1 [] (pystr (" SALT ")) (pystr ("en"))
      (pystr ("Salt is a mineral.")) (demoOracleText "Salt is a mineral.")
      demoRes2 (by decide) rfl (by decide)).1
  · exact (h.2 [] (pystr ("salt")) (pystr ("schema")) (pystr ("en"))
      (demoOracleText "not json") demoRes3 (by decide) (Or.inr rfl) (by decide)).2

-- ---------- Claim C6 ----------

lemma analyzeUnit_view (st : Store) (ing lang : PyStr) (u : UnitOracle) :
    (analyzeUnit st ing lang u).2 = unitView u := by
  unfold analyzeUnit unitView
  cases hb : u.blurbO.main with
  | error e => rw [generate_err_blurb st [] ing lang u.blurbO e hb]
  | ok bt =>
    rw [generate_blurb st [] ing lang u.blurbO bt hb]
    cases hs : u.schemaO.main with
    | error e => rw [generate_err_schema st [] ing lang u.schemaO e hs]
    | ok stx =>
      rw [generate_schema st [] ing lang u.schemaO stx hs]
      cases u.jsonParsed <;> rfl

lemma analyzeGo_spec (lang : PyStr) :
    ∀ (ings : List PyStr) (st : Store) (uo : Nat → UnitOracle),
      (analyzeGo lang st uo ings).1.map Prod.fst = ings ∧
      (analyzeGo lang st uo ings).2.map Prod.fst = ings ∧
      ∀ i : Nat, i < ings.length →
        ∃ ing, ings[i]? = some ing ∧
          (analyzeGo lang st uo ings).1[i]? = some (ing, (unitView (uo i)).1) ∧
          (analyzeGo lang st uo ings).2[i]? = some (ing, (unitView (uo i)).2) := by
  intro ings
  induction ings with
  | nil =>
    intro st uo
    refine ⟨rfl, rfl, ?_⟩
    intro i hi
    simp at hi
  | cons ing rest ih =>
    intro st uo
    have hu := analyzeUnit_view st ing lang (uo 0)
    obtain ⟨ih1, ih2, ih3⟩ :=
      ih (analyzeUnit st ing lang (uo 0)).1 (fun n => uo (n + 1))
    refine ⟨?_, ?_, ?_⟩
    · show (((ing, (analyzeUnit st ing lang (uo 0)).2.1) ::
        (analyzeGo lang (analyzeUnit st ing lang (uo 0)).1
          (fun n => uo (n + 1)) rest).1).map Prod.fst) = ing :: rest
      rw [List.map_cons, ih1]
    · show (((ing, (analyzeUnit st ing lang (uo 0)).2.2) ::
        (analyzeGo lang (analyzeUnit st ing lang (uo 0)).1
          (fun n => uo (n + 1)) rest).2).map Prod.fst) = ing :: rest
      rw [List.map_cons, ih2]
    · intro i hi
      cases i with
      | zero =>
        refine ⟨ing, List.getElem?_cons_zero, ?_, ?_⟩
        · show ((ing, (analyzeUnit st ing lang (uo 0)).2.1) :: _)[0]? =
            some (ing, (unitView (uo 0)).1)
          rw [List.getElem?_cons_zero, hu]
        · show ((ing, (analyzeUnit st ing lang (uo 0)).2.2) :: _)[0]? =
            some (ing, (unitView (uo 0)).2)
          rw [List.getElem?_cons_zero, hu]
      | succ j =>
        have hj : j < rest.length := by simpa using hi
        obtain ⟨ing2, hx1, hx2, hx3⟩ := ih3 j hj
        refine ⟨ing2, by simpa using hx1, ?_, ?_⟩
        · show ((ing, (analyzeUnit st ing lang (uo 0)).2.1) :: _)[j + 1]? = _
          rw [List.getElem?_cons_succ]
          exact hx2
        · show ((ing, (analyzeUnit st ing lang (uo 0)).2.2) :: _)[j + 1]? = _
          rw [List.getElem?_cons_succ]
          exact hx3

/-- Claim C6: when extraction yields at least one name, analyze returns
a batch whose ingredients list is the extraction result and whose blurbs
and schemas maps have exactly those names as keys (in order); each
name's entry is determined by that name's own unit oracle alone (the
error-string blurb and empty record for a failed unit, the unit's own
values otherwise), so one unit's failure never disturbs the others. -/
theorem batch_completeness (st : Store) (raw lang : PyStr)
    (uo : Nat → UnitOracle) (res : BatchResult)
    (hne : extract_ingredients_from_text raw ≠ [])
    (hok : analyze_ingredient_list st raw lang uo = Except.ok res) :
    res.ingredients = extract_ingredients_from_text raw ∧
      res.blurbs.map Prod.fst = extract_ingredients_from_text raw ∧
      res.schemas.map Prod.fst = extract_ingredients_from_text raw ∧
      ∀ i : Nat, i < (extract_ingredients_from_text raw).length →
        ∃ ing, (extract_ingredients_from_text raw)[i]? = some ing ∧
          res.blurbs[i]? = some (ing, (unitView (uo i)).1) ∧
          res.schemas[i]? = some (ing, (unitView (uo i)).2) := by
  simp only [analyze_ingredient_list] at hok
  rw [if_neg (by
    intro hcon
    exact hne (List.isEmpty_iff.1 hcon))] at hok
  injection hok with h
  obtain ⟨g1, g2, g3⟩ := analyzeGo_spec lang (extract_ingredients_from_text raw) st uo
  rw [← h]
  exact ⟨rfl, g1, g2, g3⟩

theorem batch_completeness_w :
    (extract_ingredients_from_text (pystr ("Salt, Pepper, Water")) ≠ [] ∧
      analyze_ingredient_list [] (pystr ("Salt, Pepper, Water")) (pystr ("en"))
        demoUnits = Except.ok demoBatch) ∧
    demoBatch.ingredients = extract_ingredients_from_text (pystr ("Salt, Pepper, Water")) ∧
    demoBatch.blurbs[1]? = some (pystr ("Pepper"), (unitView (demoUnits 1)).1) ∧
    demoBatch.schemas[1]? = some (pystr ("Pepper"), (unitView (demoUnits 1)).2) := by
  have hok : analyze_ingredient_list [] (pystr ("Salt, Pepper, Water")) (pystr ("en"))
      demoUnits = Except.ok demoBatch := by decide
  have h := batch_completeness [] (pystr ("Salt, Pepper, Water")) (pystr ("en"))
    demoUnits demoBatch (by decide) hok
  obtain ⟨ing, hx1, hx2, hx3⟩ := h.2.2.2 1 (by decide)
  have hing : ing = pystr ("Pepper") := by
    have he : (extract_ingredients_from_text (pystr ("Salt, Pepper, Water")))[1]? =
        some (pystr ("Pepper")) := by decide
    rw [he] at hx1
    injection hx1 with hx1
    exact hx1.symm
  rw [hing] at hx2 hx3
  exact ⟨⟨by decide, hok⟩, h.1, hx2, hx3⟩

end Ingredx
